import Mathlib

/-
Verification of the alert correlation-analysis engine (src/engine.py) against
its natural-language specification.

The development is a shallow embedding of the engine into Lean:

  * normalized alerts are records with integer epoch-millisecond timestamps;
  * Python dicts become association lists (lookup of the first matching key,
    in-place update of the first matching key, append of new keys at the end,
    which is exactly the observable behaviour of insertion-ordered dicts);
  * Python sorted(..., key=...) is a stable sort by an integer key; it is
    embedded as a stable insertion sort, which is extensionally equal to any
    stable sort with the same key;
  * iteration over a Python set has unspecified order (string hashing is
    randomized), so wherever a set iteration order is observable the theorems
    quantify over the order, and the executable definitions fix the
    first-occurrence order as one representative;
  * the engine computes scores with IEEE floats; scores are embedded with
    exact integer arithmetic: every score comparison in the engine is of the
    form  aligned / sqrt(x * y)  against a constant or against another such
    quotient, and is encoded by the equivalent cross-multiplied comparison of
    squares (both sides are nonnegative, so squaring is an order isomorphism).
    The only genuinely real-valued quantity, the log10 cardinality component
    of the cause score, is embedded in the real numbers.
  * Python int(x / y) for ints x, y truncates toward zero; this is Int.tdiv.
    (For the magnitudes reachable here the float division is exact enough
    that int(x / y) agrees with exact truncation.)
-/

set_option maxRecDepth 100000

/-! ### Generic helpers: association lists, first-occurrence dedup, stable sort -/

/-- Lookup in an association list: value of the first entry with the given key
(the observable lookup of a Python dict). -/
def alookup {κ β : Type} [DecidableEq κ] : List (κ × β) → κ → Option β
  | [], _ => none
  | e :: rest, k => if e.1 = k then some e.2 else alookup rest k

/-- Lookup with a default value (Python dict.get / defaultdict read). -/
def alookupD {κ β : Type} [DecidableEq κ] (l : List (κ × β)) (k : κ) (d : β) : β :=
  (alookup l k).getD d

/-- Store a key/value pair: overwrite the first entry with the key, or append a
new entry at the end (the observable update of an insertion-ordered dict). -/
def aset {κ β : Type} [DecidableEq κ] : List (κ × β) → κ → β → List (κ × β)
  | [], k, v => [(k, v)]
  | e :: rest, k, v => if e.1 = k then (k, v) :: rest else e :: aset rest k v

/-- Append a value to the list stored under a key, creating the key at the end
if absent (Python defaultdict(list)[k].append(v)). -/
def agrow {κ β : Type} [DecidableEq κ] : List (κ × List β) → κ → β → List (κ × List β)
  | [], k, v => [(k, [v])]
  | e :: rest, k, v => if e.1 = k then (e.1, e.2 ++ [v]) :: rest else e :: agrow rest k v

/-- Helper for dedupFO carrying the set of already-seen elements. -/
def dedupFOAux {α : Type} [DecidableEq α] (seen : List α) : List α → List α
  | [] => []
  | x :: xs => if x ∈ seen then dedupFOAux seen xs else x :: dedupFOAux (x :: seen) xs

/-- Remove duplicates keeping first occurrences.  Used as the representative
enumeration order wherever the engine materializes a Python set into a list. -/
def dedupFO {α : Type} [DecidableEq α] (l : List α) : List α := dedupFOAux [] l

/-- Insert an element into a list, after every element that is strictly
smaller under lt.  With lt the strict comparison on a sort key this yields a
stable insertion sort. -/
def insertOrd {α : Type} (lt : α → α → Bool) (x : α) : List α → List α
  | [] => [x]
  | y :: ys => if lt y x then y :: insertOrd lt x ys else x :: y :: ys

/-- Stable insertion sort: extensionally equal to Python sorted with the
corresponding key (any two stable sorts by the same key agree). -/
def sortOrd {α : Type} (lt : α → α → Bool) : List α → List α
  | [] => []
  | x :: xs => insertOrd lt x (sortOrd lt xs)

/-- Smallest element of an integer list (Python min on a nonempty list; 0 as
junk value on the empty list, which no caller passes). -/
def listMin (l : List Int) : Int := l.foldl min (l.headD 0)

/-- Largest element of an integer list (Python max). -/
def listMax (l : List Int) : Int := l.foldl max (l.headD 0)

/-- Increment the i-th entry of a list of counters, no-op out of range. -/
def incAt : List Nat → Nat → List Nat
  | [], _ => []
  | x :: xs, 0 => (x + 1) :: xs
  | x :: xs, n + 1 => x :: incAt xs n

/-- All unordered pairs of a list in enumeration order: (l[i], l[j]) for i < j,
ordered first by i then by j (itertools.combinations(l, 2)). -/
def combinations2 {α : Type} : List α → List (α × α)
  | [] => []
  | x :: xs => (xs.map (fun y => (x, y))) ++ combinations2 xs

/-- Strict lexicographic order on character lists. -/
def charsLt : List Char → List Char → Bool
  | [], [] => false
  | [], _ :: _ => true
  | _ :: _, [] => false
  | a :: as_, b :: bs => if a < b then true else if a = b then charsLt as_ bs else false

/-- Strict lexicographic order on strings, via their character lists.  (The
builtin String order does not reduce in the kernel, this one does.) -/
def strLtB (a b : String) : Bool := charsLt a.toList b.toList

/-! ### Data model

Only the attributes that the embedded pipeline stages actually read are
carried; attributes consumed exclusively by the out-of-scope ingestion /
normalization collaborator (raw vendor subtrees, title, tags, ...) are not
part of the embedded alert. -/

/-- A normalized alert (the output shape of the out-of-scope Normalizer). -/
structure Alert where
  ts : Int
  source : String
  vendor_event_id : String
  resource_id : String
  fingerprint : String
  status : String
  severity : String
  service : String
  entity_key : String
  deploy_key : Option String
  net_key : Option String
  urls : Option String
deriving DecidableEq

/-- Junk alert used only to totalize head and getLast of lists the engine
guarantees nonempty. -/
def dfltAlert : Alert :=
  ⟨0, "", "", "", "", "", "", "", "", none, none, none⟩

/-- An episode (source field end is renamed stop, end is a Lean keyword). -/
structure Episode where
  entity_key : String
  fingerprint : String
  start : Int
  stop : Int
  count : Nat
  vendors : List String
  vendor_event_ids : List String
  resource_ids : List String
  deploy_keys : List String
  net_keys : List String
  sample_ts : List Int
  alerts : List Alert
deriving DecidableEq

/-- Junk episode used only to totalize indexing the engine guarantees valid. -/
def dfltEpisode : Episode :=
  ⟨"", "", 0, 0, 0, [], [], [], [], [], [], []⟩

/-- A time window (source field end renamed stop). -/
structure Window where
  start : Int
  stop : Int
deriving DecidableEq

/-- Episode summary as stored on the situation record. -/
structure EpisodeSummary where
  entity_key : String
  fingerprint : String
  start : Int
  stop : Int
  count : Nat
deriving DecidableEq

/-- Primary cause block of a scored situation. -/
structure PrimaryCause where
  entity : String
  fingerprint : String
  confidence : Real
  lag_ms : Int

/-- A situation.  Keys that the Python dict acquires only later in the
pipeline are modeled with defaults (empty list, none): bins, padded_window,
rehydrated_alerts, primary_cause, score and next_actions are written by the
TemporalSpreader respectively the CauseSelector. -/
structure Situation where
  situation_id : String
  window : Window
  episodesSummary : List EpisodeSummary
  blast_entities : Nat
  blast_services : Nat
  change_refs : List (String × Int)
  resource_refs : List (String × String × Option String)
  related_alerts : List (Int × String × String × String × String)
  all_alerts : List Alert
  raw_episodes : List Episode
  insufficient_temporal_spread : Bool
  reason : Option String
  pad_ms_used : Int
  bin_size_s : Int
  bins : List (String × List Nat) := []
  padded_window : Option Window := none
  rehydrated_alerts : List Alert := []
  primary_cause : Option PrimaryCause := none
  score : Option Real := none
  next_actions : List String := []

/-- Engine configuration (argparse options; all integers). -/
structure Args where
  window : Int
  hop : Int
  dedup_ttl : Int
  episode_gap : Int
  max_lag : Int
  min_support : Int
deriving DecidableEq

/-- The argparse defaults. -/
def dfltArgs : Args := ⟨900, 1, 120, 300, 90, 3⟩

/-- External dependency graph: the adj mapping from entity key to neighbors. -/
abbrev Graph : Type := List (String × List String)

/-! ### NoiseFilter (engine._apply_noise_cut)

State of the three trackers.  The defaultdict read-creates keys with an empty
list, but (as the filter only ever appends nonempty values on accept and an
absent key behaves exactly like an empty value in every read) key presence in
the embedding coincides with key presence observable in the source. -/

/-- Mutable state of the noise filter: dedup cache, echo tracker, flap
tracker. -/
structure NoiseState where
  dedup : List ((String × String × String) × Int)
  echo : List ((String × String) × List (Int × String))
  flap : List ((String × String) × List (Int × String))
deriving DecidableEq

/-- The fresh tracker state of a new engine. -/
def initNoiseState : NoiseState := ⟨[], [], []⟩

/-- The dedup TTL check: drop when a cached alert with the same
(fingerprint, severity, entity_key) lies strictly within ttl seconds. -/
def dedup_drop (ttl : Int) (st : NoiseState) (a : Alert) : Bool :=
  match alookup st.dedup (a.fingerprint, a.severity, a.entity_key) with
  | some t => decide (a.ts - t < ttl * 1000)
  | none => false

/-- Store the alert timestamp in the dedup cache (runs whenever the alert
passed the dedup check, even if the echo filter drops it afterwards). -/
def pass_state (st : NoiseState) (a : Alert) : NoiseState :=
  { st with dedup := aset st.dedup (a.fingerprint, a.severity, a.entity_key) a.ts }

/-- The cross-vendor echo check: some tracked entry with the same
(fingerprint, entity_key) within 10 seconds from a different source. -/
def is_echo (echo : List ((String × String) × List (Int × String))) (a : Alert) : Bool :=
  (alookupD echo (a.fingerprint, a.entity_key) []).any
    (fun p => decide (a.ts - p.1 ≤ 10000) && decide (p.2 ≠ a.source))

/-- Append the accepted alert to the echo tracker and evict entries older
than 10 seconds. -/
def echo_update (st : NoiseState) (a : Alert) : NoiseState :=
  { st with echo :=
      (aset st.echo (a.fingerprint, a.entity_key)
        ((alookupD st.echo (a.fingerprint, a.entity_key) [] ++ [(a.ts, a.source)]).filter
          (fun p => decide (a.ts - p.1 ≤ 10000)))) }

/-- Append the accepted alert status to the flap tracker and evict entries
older than 10 minutes. -/
def flap_update (st : NoiseState) (a : Alert) : NoiseState :=
  { st with flap :=
      (aset st.flap (a.fingerprint, a.entity_key)
        ((alookupD st.flap (a.fingerprint, a.entity_key) [] ++ [(a.ts, a.status)]).filter
          (fun p => decide (a.ts - p.1 ≤ 600000)))) }

/-- One iteration of the noise-cut loop over a single alert: dedup TTL check,
vendor echo suppression (against the state after the dedup-cache write, whose
echo tracker is unchanged), flap tracking.  Returns the new state and
whether the alert was accepted. -/
def noise_step (ttl : Int) (st : NoiseState) (a : Alert) : NoiseState × Bool :=
  if dedup_drop ttl st a then (st, false)
  else if is_echo (pass_state st a).echo a then (pass_state st a, false)
  else (flap_update (echo_update (pass_state st a) a) a, true)

/-- The noise-cut loop over a list of alerts (already sorted by caller). -/
def noise_go (ttl : Int) : NoiseState → List Alert → List Alert × NoiseState
  | st, [] => ([], st)
  | st, a :: rest =>
    if (noise_step ttl st a).2 then
      (a :: (noise_go ttl (noise_step ttl st a).1 rest).1,
       (noise_go ttl (noise_step ttl st a).1 rest).2)
    else noise_go ttl (noise_step ttl st a).1 rest

/-- engine._apply_noise_cut with fresh trackers: sort ascending by ts, then
run the three filters; also returns the final tracker state (the source keeps
it on self for the CauseSelector).  The unused current_time of the source is
omitted. -/
def apply_noise_cut_st (ttl : Int) (alerts : List Alert) : List Alert × NoiseState :=
  noise_go ttl initNoiseState (sortOrd (fun a b => a.ts < b.ts) alerts)

/-- The filtered alert list returned by engine._apply_noise_cut. -/
def apply_noise_cut (ttl : Int) (alerts : List Alert) : List Alert :=
  (apply_noise_cut_st ttl alerts).1

/-! ### EpisodeBuilder (engine._build_episodes, engine._create_episode) -/

/-- Truthy optional string (Python: value is not None and not empty). -/
def truthyOpt : Option String → Option String
  | some s => if s = "" then none else some s
  | none => none

/-- Group alerts by (entity_key, fingerprint), keys in first-occurrence order,
groups in input order (insertion-ordered defaultdict(list)). -/
def group_alerts (alerts : List Alert) : List ((String × String) × List Alert) :=
  alerts.foldl (fun gs a => agrow gs (a.entity_key, a.fingerprint) a) []

/-- Split one sorted group into maximal runs with inter-alert gap at most
gapMs (the linear walk of engine._build_episodes). -/
def split_runs (gapMs : Int) (l : List Alert) : List (List Alert) :=
  let r := l.foldl
    (fun (acc : List (List Alert) × List Alert) a =>
      match acc.2.getLast? with
      | some last =>
        if a.ts - last.ts > gapMs then (acc.1 ++ [acc.2], [a]) else (acc.1, acc.2 ++ [a])
      | none => (acc.1, acc.2 ++ [a]))
    ([], [])
  if r.2 = [] then r.1 else r.1 ++ [r.2]

/-- engine._create_episode: sort the run and extract the episode attributes.
The sampled id lists come from Python sets, embedded in first-occurrence
order (their order is observable nowhere a claim looks). -/
def create_episode (l : List Alert) : Episode :=
  let s := sortOrd (fun a b => a.ts < b.ts) l
  { entity_key := (s.headD dfltAlert).entity_key
    fingerprint := (s.headD dfltAlert).fingerprint
    start := (s.headD dfltAlert).ts
    stop := (s.getLast?.getD dfltAlert).ts
    count := s.length
    vendors := dedupFO (s.map (fun a => a.source))
    vendor_event_ids := (dedupFO (s.map (fun a => a.vendor_event_id))).take 50
    resource_ids := (dedupFO (s.map (fun a => a.resource_id))).take 50
    deploy_keys := dedupFO (s.filterMap (fun a => truthyOpt a.deploy_key))
    net_keys := dedupFO (s.filterMap (fun a => truthyOpt a.net_key))
    sample_ts := (s.map (fun a => a.ts)).take 50
    alerts := s }

/-- engine._build_episodes: group, sort each group by ts, split on gaps of
more than episode_gap seconds, build episode objects. -/
def build_episodes (gapS : Int) (alerts : List Alert) : List Episode :=
  (group_alerts alerts).flatMap
    (fun g => (split_runs (gapS * 1000) (sortOrd (fun a b => a.ts < b.ts) g.2)).map create_episode)

/-! ### SituationAssembler (UnionFind, engine._build_situations,
engine._create_situation) -/

/-- Union-Find state: parent and rank maps over episode indices. -/
structure UF where
  parent : List (Nat × Nat)
  rank : List (Nat × Nat)
deriving DecidableEq

/-- All indices initialized as their own roots with rank 0 (the init loop of
engine._build_situations calls find on every index first). -/
def uf_init (n : Nat) : UF :=
  ⟨(List.range n).map (fun i => (i, i)), (List.range n).map (fun i => (i, 0))⟩

/-- Parent-chain chase with fuel.  The source uses unbounded recursion with
path compression; path compression changes no find result, and parent chains
in a union-by-rank forest over n nodes are shorter than n, so fuel n is
always sufficient and the fuel-out branch is unreachable. -/
def uf_findA (uf : UF) : Nat → Nat → Nat
  | 0, x => x
  | fuel + 1, x =>
    match alookup uf.parent x with
    | none => x
    | some p => if p = x then x else uf_findA uf fuel p

/-- UnionFind.find over a structure of n nodes. -/
def uf_find (uf : UF) (n : Nat) (x : Nat) : Nat := uf_findA uf n x

/-- Rank of a node (0 if untracked, which does not occur after init). -/
def uf_rank (uf : UF) (x : Nat) : Nat := alookupD uf.rank x 0

/-- UnionFind.union with union by rank, exactly as in the source. -/
def uf_union (n : Nat) (uf : UF) (x y : Nat) : UF :=
  let px := uf_find uf n x
  let py := uf_find uf n y
  if px = py then uf
  else
    let pq := if uf_rank uf px < uf_rank uf py then (py, px) else (px, py)
    let uf2 : UF := { uf with parent := aset uf.parent pq.2 pq.1 }
    if uf_rank uf2 pq.1 = uf_rank uf2 pq.2 then
      { uf2 with rank := aset uf2.rank pq.1 (uf_rank uf2 pq.1 + 1) }
    else uf2

/-- Temporal overlap of two episodes extended by the 5-minute join halo. -/
def episode_overlap (e1 e2 : Episode) : Bool :=
  ¬ (e1.stop + 300000 < e2.start ∨ e2.stop + 300000 < e1.start)

/-- The identity bridges of engine._build_situations: same entity or
fingerprint, intersecting deploy or net keys, or a graph edge (the graph
clause only when a graph was loaded). -/
def should_merge (g : Graph) (e1 e2 : Episode) : Bool :=
  decide (e1.entity_key = e2.entity_key) || decide (e1.fingerprint = e2.fingerprint)
  || (decide (e1.deploy_keys ≠ []) && decide (e2.deploy_keys ≠ [])
      && e1.deploy_keys.any (fun k => decide (k ∈ e2.deploy_keys)))
  || (decide (e1.net_keys ≠ []) && decide (e2.net_keys ≠ [])
      && e1.net_keys.any (fun k => decide (k ∈ e2.net_keys)))
  || (decide (g ≠ []) &&
      (((alookup g e1.entity_key).isSome
          && decide (e2.entity_key ∈ alookupD g e1.entity_key []))
        || ((alookup g e2.entity_key).isSome
          && decide (e1.entity_key ∈ alookupD g e2.entity_key []))))

/-- engine._create_situation: aggregate a nonempty episode group into a
situation (None on the empty group, which never arises).  The started_at
ISO timestamp of a change ref is carried as the raw epoch-ms start; the urls
of a resource ref come from the first alert carrying the resource id. -/
def create_situation (eps : List Episode) : Option Situation :=
  match eps with
  | [] => none
  | _ =>
    let start := listMin (eps.map (fun e => e.start))
    let stop := listMax (eps.map (fun e => e.stop))
    let sid := "S-" ++ toString start ++ "-" ++ toString stop ++ "-" ++ toString eps.length
    let all_alerts := eps.flatMap (fun e => e.alerts)
    let refs := eps.foldl
      (fun (acc : List String × List (String × String × Option String)) ep =>
        ep.resource_ids.foldl
          (fun acc2 rid =>
            if rid ∈ acc2.1 then acc2
            else
              (rid :: acc2.1,
               acc2.2 ++ [((match ep.alerts with | [] => ("unknown") | a :: _ => a.source), rid,
                 ((ep.alerts.find? (fun a => a.resource_id = rid)).bind (fun a => a.urls)))]))
          acc)
      ([], [])
    some
      { situation_id := sid
        window := ⟨start, stop⟩
        episodesSummary := eps.map (fun e => ⟨e.entity_key, e.fingerprint, e.start, e.stop, e.count⟩)
        blast_entities := (dedupFO (eps.map (fun e => e.entity_key))).length
        blast_services :=
          (dedupFO (all_alerts.filterMap
            (fun a => if a.service ≠ "" ∧ a.service ≠ "undefined" then some a.service else none))).length
        change_refs := eps.flatMap (fun e => e.deploy_keys.filterMap
          (fun dk => if dk ≠ "" then some (dk, e.start) else none))
        resource_refs := refs.2
        related_alerts := (all_alerts.take 200).map
          (fun a => (a.ts, a.entity_key, a.fingerprint, a.vendor_event_id, a.resource_id))
        all_alerts := all_alerts
        raw_episodes := eps
        insufficient_temporal_spread := false
        reason := none
        pad_ms_used := 60000
        bin_size_s := 1 }

/-- The pairwise union scan of engine._build_situations: for every index
pair i < j (enumerated i-major, as the nested loops do), union the two
indices when the episodes overlap with halo and share an identity bridge. -/
def joined_uf (g : Graph) (eps : List Episode) (n : Nat) : UF :=
  ((List.range n).flatMap
      (fun i => ((List.range n).filter (fun j => i < j)).map (fun j => (i, j)))).foldl
    (fun u p =>
      let e1 := eps.getD p.1 dfltEpisode
      let e2 := eps.getD p.2 dfltEpisode
      if episode_overlap e1 e2 && should_merge g e1 e2 then uf_union n u p.1 p.2 else u)
    (uf_init n)

/-- Group the episodes by their union-find root, keys in first-occurrence
order over the episode indices (insertion-ordered defaultdict(list)). -/
def situation_groups (uf : UF) (n : Nat) (eps : List Episode) : List (Nat × List Episode) :=
  (List.range n).foldl (fun gs i => agrow gs (uf_find uf n i) (eps.getD i dfltEpisode)) []

/-- engine._build_situations: union joinable episode pairs, group episodes
by root in first-occurrence order, and build one situation per group.  The
caller (run) drops None situations; groups are never empty so none arises. -/
def build_situations (g : Graph) (eps : List Episode) : List Situation :=
  match eps with
  | [] => []
  | _ =>
    let n := eps.length
    (situation_groups (joined_uf g eps n) n eps).filterMap (fun gr => create_situation gr.2)

/-! ### TemporalSpreader (engine._apply_temporal_spread, engine._create_bins) -/

/-- The keys of a situation: entity keys, fingerprints, deploy keys and net
keys of its episodes (a Python set; only membership is observed). -/
def situation_keys (eps : List Episode) : List String :=
  eps.flatMap (fun ep => ep.entity_key :: ep.fingerprint :: (ep.deploy_keys ++ ep.net_keys))

/-- Pre-filter of alerts that can belong to the situation. -/
def relevant_alerts (s : Situation) (alerts : List Alert) : List Alert :=
  let keys := situation_keys s.raw_episodes
  alerts.filter (fun a =>
    decide (a.entity_key ∈ keys) || decide (a.fingerprint ∈ keys)
    || (match a.deploy_key with
        | some d => decide (d ≠ "") && decide (d ∈ keys)
        | none => false)
    || (match a.net_key with
        | some nk => decide (nk ≠ "") && decide (nk ∈ keys)
        | none => false))

/-- engine._create_bins: one dense counter vector per fingerprint over
num_bins = trunc((stop - start) / bin_ms) + 1 bins; alerts fall into bin
trunc((ts - start) / bin_ms) when that index is in range.  The series keys
come from a Python set; first-occurrence order is the representative order
(theorems whose truth could depend on it quantify over the order). -/
def create_bins (alerts : List Alert) (startMs stopMs : Int) (binSizeS : Int) :
    List (String × List Nat) :=
  let binMs := binSizeS * 1000
  let numBins := (Int.tdiv (stopMs - startMs) binMs + 1).toNat
  let keys := dedupFO (alerts.map (fun a => a.fingerprint))
  let init : List (String × List Nat) := keys.map (fun k => (k, List.replicate numBins 0))
  alerts.foldl
    (fun bins a =>
      if 0 ≤ Int.tdiv (a.ts - startMs) binMs
          ∧ Int.tdiv (a.ts - startMs) binMs < (numBins : Int) then
        bins.map (fun e =>
          if e.1 = a.fingerprint then (e.1, incAt e.2 (Int.tdiv (a.ts - startMs) binMs).toNat)
          else e)
      else bins)
    init

/-- The count the source calls distinct_bins: the number of series whose
counter vector contains a positive entry (NOT the number of nonempty bin
indices; see claim C1). -/
def count_active_series (bins : List (String × List Nat)) : Nat :=
  bins.countP (fun e => e.2.any (fun c => decide (0 < c)))

/-- Result of a successful temporal spread. -/
structure SpreadResult where
  pad_ms : Int
  bin_size_s : Int
  bins : List (String × List Nat)
  padded : Window
  rehydrated : List Alert
deriving DecidableEq

/-- The rehydrated alert set for one padded window. -/
def rehydrate (relevant : List Alert) (ps pe : Int) : List Alert :=
  relevant.filter (fun a => decide (ps ≤ a.ts) && decide (a.ts ≤ pe))

/-- One binning attempt of the padding loop: bin at 1 s; when fewer than 3
series are active fall back to 5 s bins; returns the chosen bin width with
its bin matrix. -/
def spread_attempt (reh : List Alert) (ps pe : Int) : Int × List (String × List Nat) :=
  if count_active_series (create_bins reh ps pe 1) < 3 then (5, create_bins reh ps pe 5)
  else (1, create_bins reh ps pe 1)

/-- The padding loop of engine._apply_temporal_spread: double pad_ms from
60000 while at most 600000; rehydrate and bin, succeed when 3 series are
active (the count the source misnames distinct_bins) and the padded duration
reaches 10000 ms.  The loop runs at most 5 iterations (60k, 120k, 240k,
480k, then 960k fails the guard), so fuel 20 is never exhausted. -/
def spread_loop (relevant : List Alert) (startMs stopMs : Int) :
    Nat → Int → Option SpreadResult
  | 0, _ => none
  | fuel + 1, padMs =>
    if padMs > 600000 then none
    else
      if rehydrate relevant (startMs - padMs) (stopMs + padMs) = [] then
        spread_loop relevant startMs stopMs fuel (padMs * 2)
      else
        if 3 ≤ count_active_series
              (spread_attempt (rehydrate relevant (startMs - padMs) (stopMs + padMs))
                (startMs - padMs) (stopMs + padMs)).2
            ∧ 10000 ≤ (stopMs + padMs) - (startMs - padMs) then
          some ⟨padMs,
            (spread_attempt (rehydrate relevant (startMs - padMs) (stopMs + padMs))
              (startMs - padMs) (stopMs + padMs)).1,
            (spread_attempt (rehydrate relevant (startMs - padMs) (stopMs + padMs))
              (startMs - padMs) (stopMs + padMs)).2,
            ⟨startMs - padMs, stopMs + padMs⟩,
            rehydrate relevant (startMs - padMs) (stopMs + padMs)⟩
        else spread_loop relevant startMs stopMs fuel (padMs * 2)

/-- engine._apply_temporal_spread: duration precheck, relevant-alert
prefilter, padding loop; on success store pad, bin size, bins, padded window
and rehydrated alerts; on failure mark the situation degenerate. -/
def apply_temporal_spread (alerts : List Alert) (s : Situation) : Situation :=
  if s.window.stop - s.window.start < 10000 then
    { s with insufficient_temporal_spread := true,
             reason := some ("Situation duration " ++ toString (s.window.stop - s.window.start)
               ++ "ms < minimum 10000ms") }
  else
    match spread_loop (relevant_alerts s alerts) s.window.start s.window.stop 20 60000 with
    | some r =>
      { s with pad_ms_used := r.pad_ms, bin_size_s := r.bin_size_s, bins := r.bins,
               padded_window := some r.padded, rehydrated_alerts := r.rehydrated }
    | none =>
      { s with insufficient_temporal_spread := true,
               reason := some ("Could not achieve 3 distinct bins or 10000ms duration") }

/-! ### Correlation kernels (engine._burst_correlation, engine._pmi_correlation,
engine._leadlag_correlation)

The emitted score fields are real numbers of the form aligned / sqrt(x * y);
no claim reads them, and every comparison the source makes on them is
embedded as the exactly equivalent cross-multiplied comparison of squares. -/

/-- Twice the statistics.median of a nonempty list of naturals (sorted list;
middle element when odd, mean of the two middle elements when even — both
exactly representable once doubled). -/
def median2 (l : List Nat) : Nat :=
  let s := sortOrd (fun a b => a < b) l
  let n := s.length
  if n % 2 = 1 then 2 * s.getD (n / 2) 0
  else s.getD (n / 2 - 1) 0 + s.getD (n / 2) 0

/-- Four times the median absolute deviation from the median: the doubled
median of the doubled absolute deviations. -/
def mad4 (l : List Nat) : Nat :=
  let m2 := median2 l
  median2 (l.map (fun x => Int.natAbs (2 * (x : Int) - (m2 : Int))))

/-- Indices of bursting bins: count strictly above median + 3 * MAD, compared
as 4 * count > 2 * median2 + 3 * mad4.  An all-zero or empty series has an
infinite threshold and therefore no bursts. -/
def burst_indices (s : List Nat) : List Nat :=
  if s = [] ∨ s.foldl max 0 = 0 then []
  else
    (List.range s.length).filter
      (fun i => decide (2 * median2 s + 3 * mad4 s < 4 * s.getD i 0))

/-- engine._burst_correlation: burst alignment within one bin, support and
score gates; returns the aligned count carried in the emitted metrics.
score at least 0.2 is the exact cross-multiplied test
25 * aligned^2 at least |bursts_a| * |bursts_b|. -/
def burst_correlation (minSupport : Int) (a b : List Nat) : Option Nat :=
  if a.length ≠ b.length ∨ a.length < 3 then none
  else
    let ba := burst_indices a
    let bb := burst_indices b
    if ba = [] ∨ bb = [] then none
    else
      let aligned := ba.countP (fun i => bb.any (fun j => decide (i ≤ j + 1) && decide (j ≤ i + 1)))
      if (aligned : Int) < minSupport then none
      else if ba.length * bb.length ≤ 25 * (aligned * aligned) then some aligned
      else none

/-- Binarization to 0/1 activity (the impulse trains of the lead-lag kernel
and the active vectors of the PMI kernel). -/
def impulses (a : List Nat) : List Nat :=
  a.map (fun x => if 0 < x then (1 : Nat) else 0)

/-- engine._pmi_correlation: binary co-occurrence with add-one smoothing;
pmi at least 1 is the exact cross-multiplied test
(co + 1) * (n + 4) at least 2 * (ca + 1) * (cb + 1); returns the unsmoothed
co-occurrence count carried in the emitted metrics.  The p_a == 0 check of
the source is kept although it can never fire after smoothing. -/
def pmi_correlation (minSupport : Int) (a b : List Nat) : Option Nat :=
  if a.length ≠ b.length ∨ a.length < 3 then none
  else
    let activeA := impulses a
    let activeB := impulses b
    let co := (List.zip activeA activeB).countP (fun p => decide (p.1 = 1) && decide (p.2 = 1))
    if (co : Int) < minSupport then none
    else
      let co2 := co + 1
      let ca2 := activeA.sum + 1
      let cb2 := activeB.sum + 1
      let n2 := a.length + 4
      if ca2 = 0 ∨ cb2 = 0 then none
      else if 2 * (ca2 * cb2) ≤ co2 * n2 then some (co2 - 1)
      else none

/-- Best lead-lag candidate: the normalized cross-correlation
aligned / sqrt(ta * tb) is carried unsquared as the triple
(aligned, ta, tb); lag is the bin shift. -/
structure LLBest where
  aligned : Nat
  ta : Nat
  tb : Nat
  lag : Nat
deriving DecidableEq

/-- The lag scan of engine._leadlag_correlation over binarized impulse
trains: for each lag in 0..min(max_lag, n-1) compute the aligned sum, the
prefix sum of a and the suffix sum of b, skip when either sum is zero, and
keep the strictly best score.  score > best is the exact cross-multiplied
test aligned^2 * (bestTa * bestTb) > bestAligned^2 * (ta * tb); the initial
best score 0 is the triple (0, 1, 1). -/
def leadlag_best (maxLag : Int) (ia ib : List Nat) : LLBest :=
  let n := ia.length
  let lags := List.range (min maxLag ((n : Int) - 1) + 1).toNat
  lags.foldl
    (fun best lag =>
      let stats :=
        if lag = 0 then
          (((List.zip ia ib).map (fun p => p.1 * p.2)).sum, ia.sum, ib.sum)
        else
          (((List.zip ia (ib.drop lag)).map (fun p => p.1 * p.2)).sum,
           (ia.take (n - lag)).sum, (ib.drop lag).sum)
      if stats.2.1 = 0 ∨ stats.2.2 = 0 then best
      else if best.aligned * best.aligned * (stats.2.1 * stats.2.2) <
          stats.1 * stats.1 * (best.ta * best.tb) then
        ⟨stats.1, stats.2.1, stats.2.2, lag⟩
      else best)
    ⟨0, 1, 1, 0⟩

/-- engine._leadlag_correlation: binarize, scan lags, emit when the best
score is at least 0.3 (exact test 9 * ta * tb at most 100 * aligned^2) and
both impulse trains have at least two active bins; the emitted lag_ms is
best_lag * 1000 — the source multiplies the lag in bins by a hard-coded
1000 ms regardless of the bin width. -/
def leadlag_correlation (maxLag : Int) (a b : List Nat) : Option Int :=
  if a.length ≠ b.length ∨ a.length < 3 then none
  else if 9 * ((leadlag_best maxLag (impulses a) (impulses b)).ta
          * (leadlag_best maxLag (impulses a) (impulses b)).tb)
        ≤ 100 * ((leadlag_best maxLag (impulses a) (impulses b)).aligned
          * (leadlag_best maxLag (impulses a) (impulses b)).aligned)
      ∧ 2 ≤ (impulses a).sum ∧ 2 ≤ (impulses b).sum then
    some (((leadlag_best maxLag (impulses a) (impulses b)).lag : Int) * 1000)
  else none

/-! ### CorrelationEngine (engine._run_correlations) -/

/-- Method-specific metrics of an emitted correlation record.  The
real-valued score / pmi fields (needed by no claim) are omitted; the
integer payloads are carried. -/
inductive CorrMetrics where
  | burst (aligned : Nat)
  | pmi (co_count : Nat)
  | leadlag (lag_ms : Int)
deriving DecidableEq

/-- An emitted correlation record.  resource_ids_a / resource_ids_b are
drill-down lists whose content depends on Python set iteration order and
which no claim reads; they are omitted. -/
structure CorrRecord where
  method : String
  situation_id : String
  series_a : String
  series_b : String
  window : Window
  metrics : CorrMetrics
deriving DecidableEq

/-- Build one emitted correlation record for a situation and a series pair
(type, situation_id, the two series keys, the padded window, metrics). -/
def mk_corr (s : Situation) (method : String) (ea eb : String × List Nat)
    (m : CorrMetrics) : CorrRecord :=
  ⟨method, s.situation_id, ea.1, eb.1, s.padded_window.getD ⟨0, 0⟩, m⟩

/-- Emit one record from an optional kernel result (the if-around-append of
the source loop body, factored for reuse across the three kernels). -/
def opt_rec {α : Type} (o : Option α) (f : α → CorrRecord) : List CorrRecord :=
  match o with
  | some a => [f a]
  | none => []

/-- The records one series pair contributes, in source order: burst record,
then pmi record, then lead-lag record, each only when its kernel emits. -/
def pair_records (args : Args) (s : Situation) (ea eb : String × List Nat) : List CorrRecord :=
  opt_rec (burst_correlation args.min_support ea.2 eb.2)
    (fun al => mk_corr s ("burst") ea eb (CorrMetrics.burst al))
  ++ opt_rec (pmi_correlation args.min_support ea.2 eb.2)
    (fun co => mk_corr s ("pmi") ea eb (CorrMetrics.pmi co))
  ++ opt_rec (leadlag_correlation args.max_lag ea.2 eb.2)
    (fun lms => mk_corr s ("leadlag") ea eb (CorrMetrics.leadlag lms))

/-- Descending (total activity, key) order used to keep the 400 most active
series; the source sorts the (activity, key) pairs reverse=True and the keys
are distinct, so this is the same permutation. -/
def entry_before (e1 e2 : String × List Nat) : Bool :=
  decide (e2.2.sum < e1.2.sum) || (decide (e1.2.sum = e2.2.sum) && strLtB e2.1 e1.1)

/-- The series pairs engine._run_correlations processes: the (key, vector)
entries of the bin matrix, capped at the 400 most active series and at the
first 20000 pairs in combination order.  The pair enumeration works on the
entries directly; since dict keys are unique this is the same as enumerating
keys and looking the vectors up. -/
def corr_pairs (s : Situation) : List ((String × List Nat) × (String × List Nat)) :=
  let entries := if 400 < s.bins.length then (sortOrd entry_before s.bins).take 400 else s.bins
  let pairs0 := combinations2 entries
  if 20000 < pairs0.length then pairs0.take 20000 else pairs0

/-- engine._run_correlations: skip degenerate situations and empty bin
matrices; run the three kernels on every surviving pair. -/
def run_correlations (args : Args) (s : Situation) : List CorrRecord :=
  if s.insufficient_temporal_spread then []
  else if s.bins = [] then []
  else (corr_pairs s).flatMap (fun p => pair_records args s p.1 p.2)

/-! ### CauseSelector (engine._select_primary_cause and helpers) -/

/-- Total size measure of the adjacency structure, used as BFS fuel. -/
def graph_total_adj (g : Graph) : Nat := g.foldl (fun n e => n + 1 + e.2.length) 0

/-- The BFS loop of engine._has_path_bfs.  Every loop iteration pops one
queue element and only newly visited nodes enqueue (at most their adjacency
lists), so the total number of pops is bounded by 1 + the total adjacency
size and the fuel-out branch is unreachable with the fuel supplied by
has_path_bfs. -/
def bfs_loop (g : Graph) (target : String) : Nat → List String → List String → Bool
  | 0, _, _ => false
  | fuel + 1, visited, queue =>
    match queue with
    | [] => false
    | current :: rest =>
      if current ∈ visited then bfs_loop g target fuel visited rest
      else
        let visited2 := current :: visited
        if current = target then true
        else
          let nbrs := (alookupD g current []).filter (fun nb => decide (¬ nb ∈ visited2))
          bfs_loop g target fuel visited2 (rest ++ nbrs)

/-- engine._has_path_bfs: reachability from start to target along the
directed adjacency lists (true immediately when start = target). -/
def has_path_bfs (g : Graph) (start target : String) : Bool :=
  if start = target then true
  else bfs_loop g target (2 + graph_total_adj g) [] [start]

/-- engine._check_dependency_path: with no graph assume a path; otherwise
look for a BFS path from the cause entity to the entity of any other episode
(episodes equal to the cause episode are skipped by value comparison, as the
source compares the dicts). -/
def check_dependency_path (g : Graph) (cause : Episode) (eps : List Episode) : Bool :=
  if g = [] then true
  else eps.any (fun ep => if ep = cause then false else has_path_bfs g cause.entity_key ep.entity_key)

/-- First episode with minimal start (Python min with a key returns the
first minimum). -/
def earliest_episode (eps : List Episode) : Episode :=
  eps.foldl (fun m e => if e.start < m.start then e else m) (eps.headD dfltEpisode)

/-- Status-toggle count of engine._calculate_flap_score. -/
def count_toggles : List String → Nat
  | [] => 0
  | [_] => 0
  | a :: b :: rest => (if a ≠ b then 1 else 0) + count_toggles (b :: rest)

/-- engine._calculate_flap_score: min(0.3, toggles / observations) over the
tracked flap history, 0 when fewer than two observations. -/
noncomputable def calculate_flap_score (st : NoiseState) (fingerprint entity : String) : Real :=
  match alookup st.flap (fingerprint, entity) with
  | none => 0
  | some entries =>
    let statuses := entries.map (fun p => p.2)
    if statuses.length < 2 then 0
    else min (3 / 10) ((count_toggles statuses : Real) / (statuses.length : Real))

/-- The running maximum-severity fold of engine._calculate_score_components,
including its early break on critical. -/
def max_severity : List Alert → String → String
  | [], m => m
  | a :: rest, m =>
    if a.severity = "critical" then "critical"
    else if a.severity = "high" ∧ m ≠ "critical" then max_severity rest "high"
    else if a.severity = "medium" ∧ ¬ (m = "critical" ∨ m = "high") then max_severity rest "medium"
    else max_severity rest m

/-- The severity score table (default 0.25 for unknown labels). -/
noncomputable def severity_score (sev : String) : Real :=
  if sev = "low" then 1 / 4
  else if sev = "medium" then 1 / 2
  else if sev = "high" then 3 / 4
  else if sev = "critical" then 1
  else 1 / 4

/-- The score components of engine._calculate_score_components. -/
structure ScoreComponents where
  change_proximity : Real
  lead_lag : Real
  graph_path : Real
  cardinality : Real
  severity : Real
  flap : Real
  echo : Real

/-- engine._calculate_score_components: change proximity from deploy keys
(the reserved time bands collapse to the 1.0 branch because time_since_change
is fixed at 0), lead-lag reserved at 0, graph path 1/(1+1) when a path
exists in a loaded graph, log10 cardinality over distinct entities, maximum
severity of the cause episode, flap score, echo penalty 0.3 when the echo
tracker kept more than one entry. -/
noncomputable def calculate_score_components (g : Graph) (st : NoiseState) (ep : Episode)
    (s : Situation) (hasPath : Bool) : ScoreComponents :=
  let change : Real :=
    if ep.deploy_keys ≠ [] then
      (let timeSinceChange : Int := 0
       if timeSinceChange ≤ 5 then 1
       else if timeSinceChange ≤ 15 then 7 / 10
       else 2 / 10)
    else 0
  let graphPath : Real := if hasPath = true ∧ g ≠ [] then 1 / (1 + 1) else 0
  let uniqueEntities := (dedupFO (s.raw_episodes.map (fun e => e.entity_key))).length
  let card : Real := Real.log (max 1 uniqueEntities : Nat) / Real.log 10
  let sev := severity_score (max_severity ep.alerts ("low"))
  let flap := calculate_flap_score st ep.fingerprint ep.entity_key
  let echo : Real :=
    match alookup st.echo (ep.fingerprint, ep.entity_key) with
    | some l => if 1 < l.length then 3 / 10 else 0
    | none => 0
  ⟨change, 0, graphPath, card, sev, flap, echo⟩

/-- engine._generate_next_actions. -/
noncomputable def generate_next_actions (ep : Episode) (confidence : Real) : List String :=
  if 8 / 10 < confidence then
    (if ep.deploy_keys ≠ [] then
      ["rollback deployment " ++ (ep.deploy_keys.headD ("")).take 8]
     else []) ++ ["page oncall team"]
  else if 5 / 10 < confidence then
    ["investigate root cause", "check recent changes"]
  else
    ["monitor situation", "gather more data"]

/-- engine._select_primary_cause: earliest episode as cause candidate, path
gating, weighted composite clamped to [0, 1], confidence capped at 0.35 when
a graph is loaded and no path exists; writes primary_cause (with lag_ms
fixed at 0), score and next_actions onto the situation. -/
noncomputable def select_primary_cause (g : Graph) (st : NoiseState) (s : Situation) : Situation :=
  match s.raw_episodes with
  | [] => s
  | _ =>
    let ep := earliest_episode s.raw_episodes
    let hasPath := check_dependency_path g ep s.raw_episodes
    let c := calculate_score_components g st ep s hasPath
    let composite : Real :=
      35 / 100 * c.change_proximity + 20 / 100 * c.lead_lag + 20 / 100 * c.graph_path
      + 15 / 100 * c.cardinality + 15 / 100 * c.severity
      - 10 / 100 * c.flap - 5 / 100 * c.echo
    let conf0 : Real := min 1 (max 0 composite)
    let conf : Real := if hasPath = false ∧ g ≠ [] then min conf0 (35 / 100) else conf0
    { s with
      primary_cause := some ⟨ep.entity_key, ep.fingerprint, conf, 0⟩
      score := some conf
      next_actions := generate_next_actions ep conf }

/-! ### Emitter (engine._write_output, engine.run) -/

/-- The run_meta record; input_dir and generated_at (environment strings and
wall-clock) are out of the embedded scope. -/
structure RunMeta where
  window_sec : Int
  max_lag_sec : Int
  min_support : Int
  dedup_ttl_sec : Int
  episode_gap_sec : Int
  raw_alerts : Nat
  processed_alerts : Nat
  episodes_created : Nat
  situations_created : Nat
  correlations_found : Nat

/-- The serialized shape of a situation record: the projection
engine._write_output emits, with the dict.get defaults applied. -/
structure SituationOut where
  situation_id : String
  window : Window
  episodes : List EpisodeSummary
  primary_cause : Option PrimaryCause
  blast_entities : Nat
  blast_services : Nat
  change_refs : List (String × Int)
  resource_refs : List (String × String × Option String)
  related_alerts : List (Int × String × String × String × String)
  score : Real
  next_actions : List String
  insufficient_temporal_spread : Bool
  reason : Option String
  pad_ms_used : Int
  bin_size_s : Int

/-- Projection of a situation to its output record
(score defaults to 0.0 when the situation was never scored). -/
noncomputable def situation_out (s : Situation) : SituationOut :=
  { situation_id := s.situation_id
    window := s.window
    episodes := s.episodesSummary
    primary_cause := s.primary_cause
    blast_entities := s.blast_entities
    blast_services := s.blast_services
    change_refs := s.change_refs
    resource_refs := s.resource_refs
    related_alerts := s.related_alerts
    score := s.score.getD 0
    next_actions := s.next_actions
    insufficient_temporal_spread := s.insufficient_temporal_spread
    reason := s.reason
    pad_ms_used := s.pad_ms_used
    bin_size_s := s.bin_size_s }

/-- One line of the emitted NDJSON stream. -/
inductive OutRecord where
  | runMeta (m : RunMeta)
  | situation (s : SituationOut)
  | correlation (c : CorrRecord)

/-- engine._write_output: the run_meta record first, then the situation
records in processing order, then the correlation records in the order
produced. -/
noncomputable def write_output (args : Args) (rawCount processedCount epCount : Nat)
    (sits : List Situation) (corrs : List CorrRecord) : List OutRecord :=
  OutRecord.runMeta
    ⟨args.window, args.max_lag, args.min_support, args.dedup_ttl, args.episode_gap,
     rawCount, processedCount, epCount, sits.length, corrs.length⟩
  :: (sits.map (fun s => OutRecord.situation (situation_out s))
      ++ corrs.map OutRecord.correlation)

/-- engine.run over the normalized alert list: with no alerts the engine
prints and returns without ever calling _write_output (the raw-alert and the
normalized-alert guards coincide on the embedded, already-normalized input,
and normalization maps the empty input to the empty list); otherwise noise
cut, episodes, situations, temporal spread, correlations and cause selection
feed _write_output.  none models that no output file is written. -/
noncomputable def run_output (g : Graph) (args : Args) (alerts : List Alert) :
    Option (List OutRecord) :=
  if alerts = [] then none
  else
    let fr := apply_noise_cut_st args.dedup_ttl alerts
    let filtered := fr.1
    let st := fr.2
    let episodes := build_episodes args.episode_gap filtered
    let sits0 := build_situations g episodes
    let processed := sits0.foldl
      (fun (acc : List Situation × List CorrRecord) s0 =>
        let s1 := apply_temporal_spread filtered s0
        let cs := if s1.insufficient_temporal_spread = false then run_correlations args s1 else []
        let s2 := select_primary_cause g st s1
        (acc.1 ++ [s2], acc.2 ++ cs))
      ([], [])
    some (write_output args alerts.length filtered.length episodes.length processed.1 processed.2)

/-! ### Specification-side definitions

These definitions follow the words of the specification (not the source) and
are used to state the claims that compare spec language with source
behaviour. -/

/-- Spec-side count, following the claim words for the TemporalSpreader
success condition: the number of distinct bin indices that hold at least one
alert of at least one series. -/
def distinct_nonempty_bin_indices (bins : List (String × List Nat)) : Nat :=
  let n := bins.foldl (fun m e => max m e.2.length) 0
  (List.range n).countP (fun i => bins.any (fun e => decide (0 < e.2.getD i 0)))

/-- Spec-side: the lexicographically smallest entity key contained in a
situation (over its member episodes). -/
def min_entity_key (s : Situation) : String :=
  let ks := s.raw_episodes.map (fun e => e.entity_key)
  ks.foldl (fun m k => if strLtB k m then k else m) (ks.headD (""))

/-- Spec-side order on situations claimed for the output stream: ascending
window.start, ties broken by the lexicographically smallest contained entity
key. -/
def situation_claim_le (s t : Situation) : Prop :=
  s.window.start < t.window.start
  ∨ (s.window.start = t.window.start ∧ strLtB (min_entity_key t) (min_entity_key s) = false)

instance (s t : Situation) : Decidable (situation_claim_le s t) := by
  unfold situation_claim_le; infer_instance

/-! ### Concrete data used by the witnesses and counterexamples -/

/-- Blank situation used as the base of concrete test situations. -/
def dfltSituation : Situation :=
  { situation_id := "", window := ⟨0, 0⟩, episodesSummary := [], blast_entities := 0,
    blast_services := 0, change_refs := [], resource_refs := [], related_alerts := [],
    all_alerts := [], raw_episodes := [], insufficient_temporal_spread := false,
    reason := none, pad_ms_used := 60000, bin_size_s := 1 }

/-- A normalized alert with the given timestamp, fingerprint, entity key and
ids (firing, severity high, vendor datadog, as the Normalizer defaults). -/
def mkAl (ts : Int) (fp ent veid rid : String) : Alert :=
  ⟨ts, "datadog", veid, rid, fp, "firing", "high", "x", ent, none, none, none⟩

/-- C1 input: three alerts of one service-level fingerprint spread over three
distinct seconds, spanning exactly the minimum situation duration. -/
def c1Alerts : List Alert :=
  [mkAl 0 "f" "svc:x" "v1" "r1", mkAl 5000 "f" "svc:x" "v2" "r2",
   mkAl 10000 "f" "svc:x" "v3" "r3"]

/-- C1 input: the situation built from the single episode over c1Alerts. -/
def c1Situation : Situation :=
  match create_situation [create_episode c1Alerts] with
  | some s => s
  | none => dfltSituation

/-- C2 counterexample: a sparse bursty series shape shared by two series. -/
def c2va : List Nat := [9, 0, 0, 0, 9, 0, 0, 0, 9, 0, 0, 0]

/-- C2 counterexample: a constantly active series shape. -/
def c2vb : List Nat := [1, 1, 1, 1, 1, 1, 1, 1, 1, 1, 1, 1]

/-- C2 counterexample situation: three series over a 12-second padded
window, bin size 1 s. -/
def c2Situation : Situation :=
  { dfltSituation with
    situation_id := "S-c2"
    window := ⟨0, 12000⟩
    bins := [("fa", c2va), ("fb", c2vb), ("fc", c2va)]
    padded_window := some ⟨0, 12000⟩ }

/-- C4 counterexample situation: the two series keys of the bin matrix in an
order (a possible Python set iteration order) that is not lexicographic. -/
def c4Situation : Situation :=
  { dfltSituation with
    situation_id := "S-c4"
    window := ⟨0, 3000⟩
    bins := [("b", [1, 1, 1]), ("a", [1, 1, 1])]
    padded_window := some ⟨0, 3000⟩ }

/-- C5 counterexample input: one entity firing at t = 0 and t = 1e9 ms (two
episodes in one group), another entity firing once at t = 5e8 ms (enumerated
in a later group). -/
def c5Alerts : List Alert :=
  [mkAl 0 "f1" "svc:p" "v1" "r1", mkAl 1000000000 "f1" "svc:p" "v2" "r2",
   mkAl 500000000 "f2" "svc:q" "v3" "r3"]

/-- C8 scenario alert at time ts with fixed fingerprint, severity and
entity. -/
def c8a (ts : Int) (veid : String) : Alert := mkAl ts "f" "svc:x" veid veid

/-- C3 witness input: three service-level fingerprints, two of them
co-active in the same seconds. -/
def c3Alerts : List Alert :=
  [mkAl 0 "g1" "svc:a" "w1" "q1", mkAl 5000 "g1" "svc:a" "w2" "q2",
   mkAl 0 "g2" "svc:b" "w3" "q3", mkAl 5000 "g2" "svc:b" "w4" "q4",
   mkAl 10000 "g3" "svc:c" "w5" "q5", mkAl 15000 "g3" "svc:c" "w6" "q6"]

/-- C3 witness situation: the three fingerprints as member episodes over a
15-second window. -/
def c3Situation : Situation :=
  { dfltSituation with
    situation_id := "S-c3"
    window := ⟨0, 15000⟩
    raw_episodes := [
      { dfltEpisode with entity_key := "svc:a", fingerprint := "g1", start := 0, stop := 5000 },
      { dfltEpisode with entity_key := "svc:b", fingerprint := "g2", start := 0, stop := 5000 },
      { dfltEpisode with entity_key := "svc:c", fingerprint := "g3", start := 10000, stop := 15000 }] }

/-- C3 witness configuration: defaults with a 1-bin lead-lag search bound to
keep the witness evaluation small. -/
def c3Args : Args := { dfltArgs with max_lag := 1 }

/-- The lead-lag record the pipeline emits on the C3 witness input. -/
def c3Record : CorrRecord :=
  ⟨"leadlag", "S-c3", "g1", "g2", ⟨-60000, 75000⟩, CorrMetrics.leadlag 0⟩

/-- C7 witness episode on entity svc:a (the earliest, hence the cause). -/
def c7e1 : Episode :=
  { dfltEpisode with entity_key := "svc:a", fingerprint := "h1", start := 0, stop := 1000 }

/-- C7 witness episode on entity svc:b, unreachable from svc:a. -/
def c7e2 : Episode :=
  { dfltEpisode with entity_key := "svc:b", fingerprint := "h2", start := 5000, stop := 6000 }

/-- C7 witness graph: svc:a reaches only svc:c; svc:b is unreachable. -/
def c7Graph : Graph := [("svc:a", ["svc:c"])]

/-- C7 witness situation over the two disconnected entities. -/
def c7Situation : Situation :=
  { dfltSituation with
    situation_id := "S-c7"
    window := ⟨0, 6000⟩
    raw_episodes := [c7e1, c7e2] }

/-- C10 witness situation with a single member episode. -/
def c10Situation : Situation :=
  { dfltSituation with
    situation_id := "S-c10"
    window := ⟨0, 1000⟩
    raw_episodes := [c7e1] }

/-! ### Claim C6: empty input -/

/-- C6 counterexample: the claim says the pipeline on empty input emits a
stream consisting of exactly one run_meta record; in fact run returns before
ever calling _write_output, so no record stream exists at all (modeled as
none). -/
theorem claim_C6_counterexample :
    ¬ ∃ m : RunMeta, run_output [] dfltArgs [] = some [OutRecord.runMeta m] := by
  intro h
  rcases h with ⟨m, h⟩
  have hnone : run_output [] dfltArgs [] = none := rfl
  rw [hnone] at h
  exact Option.noConfusion h

/-- C6 amended: on empty input the engine exits early and writes no output
records at all, for every graph and configuration. -/
theorem claim_C6_amended (g : Graph) (args : Args) : run_output g args [] = none := rfl

/-! ### Claim C10: primary_cause.lag_ms is the constant 0 -/

/-- C10: for every scored situation (one with at least one member episode)
the emitted primary_cause.lag_ms equals 0, whatever the graph, the tracker
state and any correlation results: the CauseSelector hard-codes it. -/
theorem claim_C10 (g : Graph) (st : NoiseState) (s : Situation)
    (h : s.raw_episodes ≠ []) :
    (select_primary_cause g st s).primary_cause.map (fun pc => pc.lag_ms) = some 0 := by
  unfold select_primary_cause
  split
  · rename_i heq
    exact absurd heq h
  · rfl

/-- C10 witness: the theorem applied to a concrete one-episode situation. -/
theorem claim_C10_witness :
    c10Situation.raw_episodes ≠ []
    ∧ (select_primary_cause [] initNoiseState c10Situation).primary_cause.map
        (fun pc => pc.lag_ms) = some 0 :=
  ⟨by decide, claim_C10 [] initNoiseState c10Situation (by decide)⟩

/-! ### Claim C7: path gating caps the confidence at 0.35 -/

/-- C7: when a nonempty graph is provided and the BFS reachability check
from the cause entity to every other member episode fails, the emitted score
and the primary-cause confidence are capped at 0.35, whatever the raw
composite score. -/
theorem claim_C7 (g : Graph) (st : NoiseState) (s : Situation)
    (hg : g ≠ []) (hne : s.raw_episodes ≠ [])
    (hnopath : check_dependency_path g (earliest_episode s.raw_episodes) s.raw_episodes = false) :
    (select_primary_cause g st s).score.getD 0 ≤ 35 / 100
    ∧ ((select_primary_cause g st s).primary_cause.map (fun pc => pc.confidence)).getD 0
        ≤ 35 / 100 := by
  unfold select_primary_cause
  split
  · rename_i heq
    exact absurd heq hne
  · simp only [hnopath, eq_self_iff_true, true_and]
    rw [if_pos hg]
    exact ⟨min_le_right _ _, min_le_right _ _⟩

/-- C7 witness: two episodes on entities svc:a and svc:b, a graph in which
svc:a reaches only svc:c, so no path exists; the theorem caps the score. -/
theorem claim_C7_witness :
    c7Graph ≠ [] ∧ c7Situation.raw_episodes ≠ []
    ∧ check_dependency_path c7Graph (earliest_episode c7Situation.raw_episodes)
        c7Situation.raw_episodes = false
    ∧ (select_primary_cause c7Graph initNoiseState c7Situation).score.getD 0 ≤ 35 / 100 :=
  ⟨by decide, by decide, by decide,
   (claim_C7 c7Graph initNoiseState c7Situation (by decide) (by decide) (by decide)).1⟩

/-! ### Claim C1: the TemporalSpreader success condition -/

/-- C1: the claim (with the specification) says the spreader succeeds for a
situation of sufficient raw duration exactly when some padding in
{60k, 120k, 240k, 480k} and bin width in {1, 5} yield at least MIN_BINS = 3
distinct nonempty time bins.  On c1Situation (duration exactly 10000 ms, one
fingerprint firing in three distinct seconds) the rehydrated window at
pad 60000 and bin width 1 has 3 distinct nonempty bins — yet the source
marks the situation insufficient_temporal_spread, because the loop variable
it calls distinct_bins actually counts the series that have any nonzero bin
(here 1), not the nonempty bin indices, contradicting the comment above the
loop ("Count distinct bins with data") and the emitted reason text. -/
theorem claim_C1_code_divergence :
    (10000 ≤ c1Situation.window.stop - c1Situation.window.start
      ∧ (∃ padMs, padMs ∈ ([60000, 120000, 240000, 480000] : List Int)
          ∧ ∃ bsz, bsz ∈ ([1, 5] : List Int)
          ∧ 3 ≤ distinct_nonempty_bin_indices
              (create_bins
                ((relevant_alerts c1Situation c1Alerts).filter
                  (fun a => decide (c1Situation.window.start - padMs ≤ a.ts)
                    && decide (a.ts ≤ c1Situation.window.stop + padMs)))
                (c1Situation.window.start - padMs) (c1Situation.window.stop + padMs) bsz)))
    ∧ (apply_temporal_spread c1Alerts c1Situation).insufficient_temporal_spread = true := by
  refine ⟨⟨by decide, ⟨60000, by decide, 1, by decide, by decide⟩⟩, rfl⟩

/-! ### Claim C2: emission order of the correlation records -/

/-- C2 counterexample: the claim says all burst records are emitted first,
then all PMI records, then all lead-lag records.  On c2Situation the source
emits [leadlag(fa,fb), burst(fa,fc), pmi(fa,fc), leadlag(fa,fc),
leadlag(fb,fc)] — a burst record after a lead-lag record — because the three
kernels run pair by pair, so the stream is not the method-grouped
concatenation the claim describes. -/
theorem claim_C2_counterexample :
    ¬ (run_correlations dfltArgs c2Situation
      = (run_correlations dfltArgs c2Situation).filter (fun r => decide (r.method = "burst"))
        ++ (run_correlations dfltArgs c2Situation).filter (fun r => decide (r.method = "pmi"))
        ++ (run_correlations dfltArgs c2Situation).filter
            (fun r => decide (r.method = "leadlag"))) := by
  decide

/-! ### Claim C4: canonical ordering of the series pair -/

/-- C4 counterexample: the claim says series_a is lexicographically smaller
than series_b because series keys are sorted before pair enumeration.  The
source never sorts the keys: it enumerates pairs in the iteration order of a
Python set of fingerprints, which is unspecified (string hashing is
randomized).  With the set order (b, a) — as admissible as any other — the
single emitted record has series_a = b and series_b = a. -/
theorem claim_C4_counterexample :
    ¬ (∀ r ∈ run_correlations dfltArgs c4Situation, strLtB r.series_a r.series_b = true) := by
  decide

/-! ### Claim C5: output order of the situation records -/

/-- C5 counterexample: the claim says situations appear sorted by
window.start ascending (ties by smallest entity key).  Running the embedded
pipeline on c5Alerts produces situations with starts [0, 1000000000,
500000000]: the source emits the components in union-find group order (by
first contained episode), and episodes of one (entity, fingerprint) group
are enumerated together, so the late episode of svc:p precedes the earlier
situation of svc:q and no sorting happens. -/
theorem claim_C5_counterexample :
    ¬ List.Pairwise situation_claim_le
        (build_situations [] (build_episodes 300 (apply_noise_cut 120 c5Alerts))) := by
  decide

/-! ### Lemmas for the amended C2, C4 and C5 claims -/

/-- Membership in an opt_rec block determines the kernel result and the
record. -/
lemma mem_opt_rec {α : Type} {o : Option α} {f : α → CorrRecord} {r : CorrRecord}
    (h : r ∈ opt_rec o f) : ∃ a, o = some a ∧ r = f a := by
  cases o with
  | none => simp [opt_rec] at h
  | some a =>
    simp [opt_rec] at h
    exact ⟨a, rfl, h⟩

/-- The method sequence one pair contributes is a sublist of
[burst, pmi, leadlag]. -/
lemma pair_records_methods (args : Args) (s : Situation) (ea eb : String × List Nat) :
    List.Sublist ((pair_records args s ea eb).map (fun r => r.method))
      ["burst", "pmi", "leadlag"] := by
  unfold pair_records
  cases burst_correlation args.min_support ea.2 eb.2 <;>
    cases pmi_correlation args.min_support ea.2 eb.2 <;>
      cases leadlag_correlation args.max_lag ea.2 eb.2 <;>
        simp [opt_rec, mk_corr]

/-- Every record of a pair block carries the series keys of its pair. -/
lemma pair_records_series {args : Args} {s : Situation} {ea eb : String × List Nat}
    {r : CorrRecord} (h : r ∈ pair_records args s ea eb) :
    r.series_a = ea.1 ∧ r.series_b = eb.1 := by
  unfold pair_records at h
  rcases List.mem_append.mp h with h12 | h3
  · rcases List.mem_append.mp h12 with h1 | h2
    · obtain ⟨a, _, rfl⟩ := mem_opt_rec h1
      exact ⟨rfl, rfl⟩
    · obtain ⟨a, _, rfl⟩ := mem_opt_rec h2
      exact ⟨rfl, rfl⟩
  · obtain ⟨a, _, rfl⟩ := mem_opt_rec h3
    exact ⟨rfl, rfl⟩

/-- Inserting permutes to consing. -/
lemma insertOrd_perm {α : Type} (lt : α → α → Bool) (x : α) (l : List α) :
    (insertOrd lt x l).Perm (x :: l) := by
  induction l with
  | nil => exact List.Perm.refl _
  | cons y ys ih =>
    unfold insertOrd
    by_cases h : lt y x = true
    · rw [if_pos h]
      exact (ih.cons y).trans (List.Perm.swap x y ys)
    · rw [if_neg h]

/-- The insertion sort is a permutation of its input. -/
lemma sortOrd_perm {α : Type} (lt : α → α → Bool) (l : List α) :
    (sortOrd lt l).Perm l := by
  induction l with
  | nil => exact List.Perm.refl _
  | cons x xs ih =>
    exact (insertOrd_perm lt x (sortOrd lt xs)).trans (ih.cons x)

/-- Pairs produced by combinations2 are related by any relation that holds
pairwise on the list. -/
lemma combinations2_pairwise {α : Type} {R : α → α → Prop} :
    ∀ {l : List α}, List.Pairwise R l → ∀ p ∈ combinations2 l, R p.1 p.2 := by
  intro l
  induction l with
  | nil =>
    intro _ p hp
    simp [combinations2] at hp
  | cons x xs ih =>
    intro h p hp
    unfold combinations2 at hp
    rcases List.mem_append.mp hp with h1 | h2
    · obtain ⟨y, hy, rfl⟩ := List.mem_map.mp h1
      exact (List.pairwise_cons.mp h).1 y hy
    · exact ih (List.pairwise_cons.mp h).2 p h2

/-- The series keys of the capped entry list are still duplicate-free. -/
lemma corr_entries_nodup {s : Situation} (hnd : (s.bins.map Prod.fst).Nodup) :
    (((if 400 < s.bins.length then (sortOrd entry_before s.bins).take 400 else s.bins)).map
      Prod.fst).Nodup := by
  by_cases hlen : 400 < s.bins.length
  · rw [if_pos hlen, List.map_take]
    have hperm : ((sortOrd entry_before s.bins).map Prod.fst).Perm (s.bins.map Prod.fst) :=
      (sortOrd_perm entry_before s.bins).map Prod.fst
    exact List.Nodup.sublist (List.take_sublist _ _) (hperm.symm.nodup hnd)
  · rw [if_neg hlen]
    exact hnd

/-! ### Claim C2 amended: per-pair emission order -/

/-- C2 amended: for a situation past the degeneracy guards, the record
stream is the concatenation, in pair enumeration order, of exactly one block
per enumerated series pair: the i-th block's records all carry the i-th
pair's series keys, and within a block the methods appear in the order
burst, then pmi, then leadlag, each at most once.  In particular the stream
is not grouped globally by method. -/
theorem claim_C2_amended (args : Args) (s : Situation)
    (h1 : s.insufficient_temporal_spread = false) (h2 : s.bins ≠ []) :
    ∃ blocks : List (List CorrRecord),
      run_correlations args s = blocks.flatten
      ∧ blocks.length = (corr_pairs s).length
      ∧ ∀ i (hi : i < blocks.length) (hp : i < (corr_pairs s).length),
          (∀ r ∈ blocks[i], r.series_a = (corr_pairs s)[i].1.1
              ∧ r.series_b = (corr_pairs s)[i].2.1)
          ∧ List.Sublist ((blocks[i]).map (fun r => r.method))
              ["burst", "pmi", "leadlag"] := by
  refine ⟨(corr_pairs s).map (fun p => pair_records args s p.1 p.2), ?_,
    List.length_map _ _, ?_⟩
  · unfold run_correlations
    rw [if_neg (by simp [h1]), if_neg h2, List.flatMap_def]
  · intro i hi hp
    have hblk : ((corr_pairs s).map (fun p => pair_records args s p.1 p.2))[i]
        = pair_records args s ((corr_pairs s)[i]).1 ((corr_pairs s)[i]).2 := by
      simp
    rw [hblk]
    exact ⟨fun r hr => pair_records_series hr, pair_records_methods args s _ _⟩

/-- C2 witness: the amended theorem applied to the concrete three-series
situation of the counterexample, whose stream splits into the three
per-pair blocks. -/
theorem claim_C2_witness :
    (c2Situation.insufficient_temporal_spread = false)
    ∧ (c2Situation.bins ≠ [])
    ∧ ∃ blocks : List (List CorrRecord),
        run_correlations dfltArgs c2Situation = blocks.flatten
        ∧ blocks.length = (corr_pairs c2Situation).length
        ∧ ∀ i (hi : i < blocks.length) (hp : i < (corr_pairs c2Situation).length),
            (∀ r ∈ blocks[i], r.series_a = (corr_pairs c2Situation)[i].1.1
                ∧ r.series_b = (corr_pairs c2Situation)[i].2.1)
            ∧ List.Sublist ((blocks[i]).map (fun r => r.method))
                ["burst", "pmi", "leadlag"] :=
  ⟨by decide, by decide, claim_C2_amended dfltArgs c2Situation (by decide) (by decide)⟩

/-! ### Claim C4 amended: distinctness of the series pair -/

/-- C4 amended: the source does not sort the series keys, so the
lexicographic invariant fails (see the counterexample); what holds is that
the two series of every emitted record are distinct keys of the bin matrix,
taken in its (unspecified) enumeration order.  Stated for every situation
whose bin-matrix keys are duplicate-free, which the engine guarantees since
they come from a set. -/
theorem claim_C4_amended (args : Args) (s : Situation)
    (hnd : (s.bins.map Prod.fst).Nodup) :
    ∀ r ∈ run_correlations args s, r.series_a ≠ r.series_b := by
  intro r hr
  unfold run_correlations at hr
  by_cases h1 : s.insufficient_temporal_spread
  · rw [if_pos h1] at hr
    simp at hr
  · rw [if_neg h1] at hr
    by_cases h2 : s.bins = []
    · rw [if_pos h2] at hr
      simp at hr
    · rw [if_neg h2] at hr
      obtain ⟨p, hp, hrp⟩ := List.mem_flatMap.mp hr
      obtain ⟨ha, hb⟩ := pair_records_series hrp
      rw [ha, hb]
      have hpairs : p ∈ combinations2
          (if 400 < s.bins.length then (sortOrd entry_before s.bins).take 400 else s.bins) := by
        unfold corr_pairs at hp
        by_cases h3 : 20000 <
            (combinations2 ((if 400 < s.bins.length then
              (sortOrd entry_before s.bins).take 400 else s.bins))).length
        · simp only [if_pos h3] at hp
          exact List.mem_of_mem_take hp
        · simpa only [if_neg h3] using hp
      have hne := combinations2_pairwise
        (List.pairwise_map.mp ((corr_entries_nodup hnd))) p hpairs
      exact hne

/-- C4 witness: the amended theorem applied to a concrete situation with
duplicate-free series keys; the record emitted for the pair (b, a) has
distinct series. -/
theorem claim_C4_witness :
    ((c4Situation.bins.map Prod.fst).Nodup)
    ∧ ∀ r ∈ run_correlations dfltArgs c4Situation, r.series_a ≠ r.series_b :=
  ⟨by decide, claim_C4_amended dfltArgs c4Situation (by decide)⟩

/-- agrow keeps the head key and only ever appends to the head group. -/
lemma agrow_head {κ β : Type} [DecidableEq κ] {gs : List (κ × List β)} {k0 : κ}
    {l0 : List β} (k : κ) (v : β) (h : gs.head? = some (k0, l0)) :
    ∃ l1, (agrow gs k v).head? = some (k0, l0 ++ l1) := by
  cases gs with
  | nil => simp at h
  | cons e rest =>
    have he : e = (k0, l0) := by simpa using h
    subst he
    unfold agrow
    by_cases hk : (k0, l0).1 = k
    · rw [if_pos hk]
      exact ⟨[v], rfl⟩
    · rw [if_neg hk]
      exact ⟨[], by simp⟩

/-- Folding agrow over any index list keeps the head key and only appends to
the head group. -/
lemma foldl_agrow_head {κ β ι : Type} [DecidableEq κ] (f : ι → κ) (g : ι → β) :
    ∀ (l : List ι) (gs : List (κ × List β)) (k0 : κ) (l0 : List β),
      gs.head? = some (k0, l0) →
      ∃ l1, (l.foldl (fun acc i => agrow acc (f i) (g i)) gs).head? = some (k0, l0 ++ l1) := by
  intro l
  induction l with
  | nil =>
    intro gs k0 l0 h
    exact ⟨[], by simpa using h⟩
  | cons i is ih =>
    intro gs k0 l0 h
    obtain ⟨l1, h1⟩ := agrow_head (f i) (g i) h
    obtain ⟨l2, h2⟩ := ih (agrow gs (f i) (g i)) k0 (l0 ++ l1) h1
    refine ⟨l1 ++ l2, ?_⟩
    rw [List.foldl_cons, ← List.append_assoc]
    exact h2

/-- The first group of the union-find grouping is keyed by the root of
episode 0 and starts with episode 0. -/
lemma situation_groups_head (uf : UF) (e : Episode) (es : List Episode) :
    ∃ k0 l1, (situation_groups uf (e :: es).length (e :: es)).head? = some (k0, e :: l1) := by
  unfold situation_groups
  rw [List.length_cons, List.range_succ_eq_map, List.foldl_cons]
  have h0 : (agrow ([] : List (Nat × List Episode)) (uf_find uf (es.length + 1) 0)
      ((e :: es).getD 0 dfltEpisode)).head? = some (uf_find uf (es.length + 1) 0, [e]) := rfl
  obtain ⟨l1, h1⟩ := foldl_agrow_head (fun i => uf_find uf (es.length + 1) i)
    (fun i => (e :: es).getD i dfltEpisode) ((List.range es.length).map Nat.succ) _ _ _ h0
  exact ⟨uf_find uf (es.length + 1) 0, l1, h1⟩

/-- create_situation on a nonempty group succeeds and stores the group as
raw_episodes. -/
lemma create_situation_cons (x : Episode) (xs : List Episode) :
    ∃ s, create_situation (x :: xs) = some s ∧ s.raw_episodes = x :: xs :=
  ⟨_, rfl, rfl⟩

/-! ### Claim C5 amended: output order of the situation records -/

/-- dedupFOAux over an appended element: the element is kept exactly when it
is new to both the seen set and the list. -/
lemma dedupFOAux_append_one {α : Type} [DecidableEq α] :
    ∀ (l : List α) (seen : List α) (x : α),
      dedupFOAux seen (l ++ [x])
        = dedupFOAux seen l ++ (if x ∈ seen ∨ x ∈ l then [] else [x]) := by
  intro l
  induction l with
  | nil =>
    intro seen x
    by_cases hx : x ∈ seen
    · simp [dedupFOAux, hx]
    · simp [dedupFOAux, hx]
  | cons y ys ih =>
    intro seen x
    rw [List.cons_append]
    unfold dedupFOAux
    by_cases hy : y ∈ seen
    · rw [if_pos hy, if_pos hy, ih]
      refine congrArg _ (if_congr ?_ rfl rfl)
      constructor
      · rintro (h | h)
        · exact Or.inl h
        · exact Or.inr (List.mem_cons_of_mem y h)
      · rintro (h | h)
        · exact Or.inl h
        · rcases List.mem_cons.mp h with rfl | h2
          · exact Or.inl hy
          · exact Or.inr h2
    · rw [if_neg hy, if_neg hy, ih, List.cons_append]
      refine congrArg _ (congrArg _ (if_congr ?_ rfl rfl))
      constructor
      · rintro (h | h)
        · rcases List.mem_cons.mp h with rfl | h2
          · exact Or.inr (List.mem_cons_self _ _)
          · exact Or.inl h2
        · exact Or.inr (List.mem_cons_of_mem y h)
      · rintro (h | h)
        · exact Or.inl (List.mem_cons_of_mem y h)
        · rcases List.mem_cons.mp h with rfl | h2
          · exact Or.inl (List.mem_cons_self _ _)
          · exact Or.inr h2

/-- First-occurrence dedup over an appended element. -/
lemma dedupFO_append_one {α : Type} [DecidableEq α] (l : List α) (x : α) :
    dedupFO (l ++ [x]) = dedupFO l ++ (if x ∈ l then [] else [x]) := by
  unfold dedupFO
  rw [dedupFOAux_append_one]
  refine congrArg _ (if_congr ?_ rfl rfl)
  simp

/-- Membership in the accumulator-carrying dedup. -/
lemma dedupFOAux_mem {α : Type} [DecidableEq α] :
    ∀ (l : List α) (seen : List α) (x : α),
      x ∈ dedupFOAux seen l ↔ x ∈ l ∧ x ∉ seen := by
  intro l
  induction l with
  | nil =>
    intro seen x
    simp [dedupFOAux]
  | cons y ys ih =>
    intro seen x
    unfold dedupFOAux
    by_cases hy : y ∈ seen
    · rw [if_pos hy, ih]
      constructor
      · rintro ⟨h1, h2⟩
        exact ⟨List.mem_cons_of_mem y h1, h2⟩
      · rintro ⟨h1, h2⟩
        rcases List.mem_cons.mp h1 with rfl | h3
        · exact absurd hy h2
        · exact ⟨h3, h2⟩
    · rw [if_neg hy]
      constructor
      · intro h
        rcases List.mem_cons.mp h with rfl | h2
        · exact ⟨List.mem_cons_self _ _, hy⟩
        · obtain ⟨h3, h4⟩ := (ih (y :: seen) x).mp h2
          exact ⟨List.mem_cons_of_mem y h3, fun hs => h4 (List.mem_cons_of_mem y hs)⟩
      · rintro ⟨h1, h2⟩
        rcases List.mem_cons.mp h1 with rfl | h3
        · exact List.mem_cons_self _ _
        · by_cases hxy : x = y
          · subst hxy
            exact List.mem_cons_self _ _
          · refine List.mem_cons_of_mem y ((ih (y :: seen) x).mpr ⟨h3, fun hs => ?_⟩)
            rcases List.mem_cons.mp hs with h5 | h6
            · exact hxy h5
            · exact h2 h6

/-- dedupFO keeps exactly the elements of the list. -/
lemma dedupFO_mem {α : Type} [DecidableEq α] (l : List α) (x : α) :
    x ∈ dedupFO l ↔ x ∈ l := by
  unfold dedupFO
  rw [dedupFOAux_mem]
  simp

/-- The deduplicated list has no duplicates. -/
lemma dedupFOAux_nodup {α : Type} [DecidableEq α] :
    ∀ (l : List α) (seen : List α), (dedupFOAux seen l).Nodup := by
  intro l
  induction l with
  | nil =>
    intro seen
    simp [dedupFOAux]
  | cons y ys ih =>
    intro seen
    unfold dedupFOAux
    by_cases hy : y ∈ seen
    · rw [if_pos hy]
      exact ih seen
    · rw [if_neg hy]
      refine List.nodup_cons.mpr ⟨?_, ih (y :: seen)⟩
      intro hmem
      exact ((dedupFOAux_mem ys (y :: seen) y).mp hmem).2 (List.mem_cons_self _ _)

/-- dedupFO produces a duplicate-free list. -/
lemma dedupFO_nodup {α : Type} [DecidableEq α] (l : List α) : (dedupFO l).Nodup :=
  dedupFOAux_nodup l []

/-- agrow on an absent key appends a fresh singleton group at the end. -/
lemma agrow_not_mem {κ β : Type} [DecidableEq κ] :
    ∀ (gs : List (κ × List β)) (k : κ) (v : β), k ∉ gs.map Prod.fst →
      agrow gs k v = gs ++ [(k, [v])] := by
  intro gs
  induction gs with
  | nil =>
    intro k v _
    rfl
  | cons e rest ih =>
    intro k v h
    simp only [List.map_cons, List.mem_cons, not_or] at h
    unfold agrow
    rw [if_neg (fun he => h.1 he.symm), ih _ _ h.2, List.cons_append]

/-- agrow on a present key of a keyed map with duplicate-free keys appends
the value to exactly that key's group. -/
lemma agrow_map_mem {κ β : Type} [DecidableEq κ] (F : κ → List β) (v : β) :
    ∀ (ks : List κ) (k : κ), ks.Nodup → k ∈ ks →
      agrow (ks.map (fun k0 => (k0, F k0))) k v
        = ks.map (fun k0 => (k0, if k0 = k then F k0 ++ [v] else F k0)) := by
  intro ks
  induction ks with
  | nil =>
    intro k _ hk
    simp at hk
  | cons k0 ks ih =>
    intro k hnd hk
    obtain ⟨hk0, hnd2⟩ := List.nodup_cons.mp hnd
    rw [List.map_cons, List.map_cons]
    unfold agrow
    by_cases he : k0 = k
    · subst he
      rw [if_pos rfl, if_pos rfl]
      refine congrArg (List.cons _) ?_
      refine List.map_congr_left (fun k1 hk1 => ?_)
      rw [if_neg (fun h : k1 = k0 => hk0 (h ▸ hk1))]
    · rw [if_neg he, if_neg he]
      have hk2 : k ∈ ks := by
        rcases List.mem_cons.mp hk with rfl | h2
        · exact absurd rfl he
        · exact h2
      rw [ih k hnd2 hk2]

/-- Filtering on a key that does not occur gives the empty list. -/
lemma filter_fst_eq_nil {κ β : Type} [DecidableEq κ] :
    ∀ (l : List (κ × β)) (k : κ), k ∉ l.map Prod.fst →
      l.filter (fun p => decide (p.1 = k)) = [] := by
  intro l
  induction l with
  | nil =>
    intro k _
    rfl
  | cons e rest ih =>
    intro k h
    simp only [List.map_cons, List.mem_cons, not_or] at h
    rw [List.filter_cons,
      if_neg (by simp only [decide_eq_true_eq]; exact fun he => h.1 he.symm)]
    exact ih k h.2

/-- The fold of agrow over a keyed stream groups the values by key, keys in
first-occurrence order, each group holding its values in stream order (the
observable content of an insertion-ordered defaultdict(list) loop). -/
lemma foldl_agrow_char {κ β : Type} [DecidableEq κ] (l : List (κ × β)) :
    l.foldl (fun gs p => agrow gs p.1 p.2) []
      = (dedupFO (l.map Prod.fst)).map
          (fun k => (k, (l.filter (fun p => decide (p.1 = k))).map Prod.snd)) := by
  induction l using List.reverseRecOn with
  | nil => rfl
  | append_singleton l e ih =>
    rw [List.foldl_append, List.foldl_cons, List.foldl_nil, ih, List.map_append,
      List.map_cons, List.map_nil, dedupFO_append_one]
    by_cases hk : e.1 ∈ l.map Prod.fst
    · rw [if_pos hk, List.append_nil,
        agrow_map_mem (fun k => (l.filter (fun p => decide (p.1 = k))).map Prod.snd)
          e.2 (dedupFO (l.map Prod.fst)) e.1 (dedupFO_nodup _)
          ((dedupFO_mem _ _).mpr hk)]
      refine List.map_congr_left (fun k0 _ => ?_)
      rw [List.filter_append, List.map_append, List.filter_cons, List.filter_nil]
      by_cases h0 : k0 = e.1
      · rw [if_pos h0, if_pos (by simp [h0.symm])]
        rfl
      · rw [if_neg h0, if_neg (by simp; exact fun h => h0 h.symm), List.map_nil,
          List.append_nil]
    · rw [if_neg hk]
      have hfst : ((dedupFO (l.map Prod.fst)).map
          (fun k => (k, (l.filter (fun p => decide (p.1 = k))).map Prod.snd))).map Prod.fst
          = dedupFO (l.map Prod.fst) := by
        simp [Function.comp_def]
      rw [agrow_not_mem _ _ _ (by rw [hfst]; exact fun h => hk ((dedupFO_mem _ _).mp h)),
        List.map_append, List.map_cons, List.map_nil]
      refine congrArg₂ (· ++ ·) ?_ ?_
      · refine List.map_congr_left (fun k0 hk0 => ?_)
        have hne : ¬ e.1 = k0 := fun h =>
          hk (h ▸ (dedupFO_mem _ _).mp hk0)
        rw [List.filter_append, List.filter_cons,
          if_neg (by simpa using hne), List.filter_nil, List.append_nil]
      · rw [List.filter_append, filter_fst_eq_nil l e.1 hk, List.filter_cons,
          if_pos (by simp), List.filter_nil, List.nil_append]
        rfl

/-- The groups of engine._build_situations, characterized positionally: one
group per union-find root, roots in first-occurrence order over the episode
indices, each group holding its episodes in index order. -/
lemma situation_groups_char (uf : UF) (n : Nat) (eps : List Episode) :
    situation_groups uf n eps
      = (dedupFO ((List.range n).map (fun i => uf_find uf n i))).map
          (fun r => (r, ((List.range n).filter
              (fun i => decide (uf_find uf n i = r))).map
            (fun i => eps.getD i dfltEpisode))) := by
  have h1 : situation_groups uf n eps
      = ((List.range n).map (fun i => (uf_find uf n i, eps.getD i dfltEpisode))).foldl
          (fun gs p => agrow gs p.1 p.2) [] := by
    rw [List.foldl_map]
    rfl
  rw [h1, foldl_agrow_char]
  simp only [List.map_map, List.filter_map, Function.comp_def]

/-- The raw episodes of a situation built from a nonempty group are exactly
the group. -/
lemma create_situation_raw (e : Episode) (l : List Episode) :
    (create_situation (e :: l)).map (fun s => s.raw_episodes) = some (e :: l) := rfl

/-- Building one situation per keyed nonempty group and reading back the raw
episodes returns the groups in order. -/
lemma filterMap_groups_raw :
    ∀ (ks : List Nat) (mem : Nat → List Episode), (∀ k ∈ ks, mem k ≠ []) →
      (((ks.map (fun r => (r, mem r))).filterMap
          (fun gr => create_situation gr.2)).map (fun s => s.raw_episodes))
        = ks.map mem := by
  intro ks
  induction ks with
  | nil =>
    intro mem _
    rfl
  | cons k ks ih =>
    intro mem hne
    cases hmk : mem k with
    | nil => exact absurd hmk (hne k (List.mem_cons_self _ _))
    | cons e l =>
      obtain ⟨s, hs, hraw⟩ := Option.map_eq_some'.mp (create_situation_raw e l)
      have h2 : create_situation ((k, mem k)).2 = some s := by
        show create_situation (mem k) = some s
        rw [hmk]
        exact hs
      rw [List.map_cons]
      simp only [List.filterMap_cons, h2, List.map_cons]
      rw [hraw, ← hmk, ih mem (fun k2 hk2 => hne k2 (List.mem_cons_of_mem _ hk2))]

/-- C5 amended: the situation records are not sorted by window.start (see
the counterexample); they appear in component-formation order: one situation
per union-find root, components ordered by the index of their first episode
in the episode enumeration, and each situation holding exactly the episodes
of its component in enumeration order. -/
theorem claim_C5_amended (g : Graph) (eps : List Episode) :
    (build_situations g eps).map (fun s => s.raw_episodes)
      = (dedupFO ((List.range eps.length).map
            (fun i => uf_find (joined_uf g eps eps.length) eps.length i))).map
          (fun r => ((List.range eps.length).filter
              (fun i => decide (uf_find (joined_uf g eps eps.length) eps.length i = r))).map
            (fun i => eps.getD i dfltEpisode)) := by
  cases eps with
  | nil => rfl
  | cons e0 es0 =>
    have hb : build_situations g (e0 :: es0)
        = (situation_groups (joined_uf g (e0 :: es0) (e0 :: es0).length)
            (e0 :: es0).length (e0 :: es0)).filterMap
          (fun gr => create_situation gr.2) := rfl
    rw [hb, situation_groups_char]
    refine filterMap_groups_raw _ _ (fun r hr => ?_)
    obtain ⟨i, hi, hkey⟩ := List.mem_map.mp ((dedupFO_mem _ _).mp hr)
    intro hnil
    rw [List.map_eq_nil_iff] at hnil
    exact List.ne_nil_of_mem (List.mem_filter.mpr ⟨hi, by simp only [decide_eq_true_eq]; exact hkey⟩) hnil

/-! ### Lemmas for claim C3 -/

/-- Elements of the deduplicated list come from the original list. -/
lemma dedupFOAux_subset {α : Type} [DecidableEq α] :
    ∀ (l : List α) (seen : List α) (x : α), x ∈ dedupFOAux seen l → x ∈ l := by
  intro l
  induction l with
  | nil =>
    intro seen x h
    simp [dedupFOAux] at h
  | cons y ys ih =>
    intro seen x h
    unfold dedupFOAux at h
    by_cases hy : y ∈ seen
    · rw [if_pos hy] at h
      exact List.mem_cons_of_mem y (ih seen x h)
    · rw [if_neg hy] at h
      rcases List.mem_cons.mp h with rfl | hmem
      · exact List.mem_cons_self x ys
      · exact List.mem_cons_of_mem y (ih (y :: seen) x hmem)

/-- Both components of a combinations2 pair are elements of the list. -/
lemma combinations2_mem {α : Type} {p : α × α} :
    ∀ {l : List α}, p ∈ combinations2 l → p.1 ∈ l ∧ p.2 ∈ l := by
  intro l
  induction l with
  | nil =>
    intro h
    simp [combinations2] at h
  | cons x xs ih =>
    intro h
    unfold combinations2 at h
    rcases List.mem_append.mp h with h1 | h2
    · obtain ⟨y, hy, rfl⟩ := List.mem_map.mp h1
      exact ⟨List.mem_cons_self x xs, List.mem_cons_of_mem x hy⟩
    · obtain ⟨ha, hb⟩ := ih h2
      exact ⟨List.mem_cons_of_mem x ha, List.mem_cons_of_mem x hb⟩

/-- Both entries of a processed series pair belong to the bin matrix. -/
lemma corr_pairs_mem {s : Situation} {p : (String × List Nat) × (String × List Nat)}
    (hp : p ∈ corr_pairs s) : p.1 ∈ s.bins ∧ p.2 ∈ s.bins := by
  unfold corr_pairs at hp
  have hp2 : p ∈ combinations2
      (if 400 < s.bins.length then (sortOrd entry_before s.bins).take 400 else s.bins) := by
    by_cases h3 : 20000 < (combinations2 ((if 400 < s.bins.length then
        (sortOrd entry_before s.bins).take 400 else s.bins))).length
    · simp only [if_pos h3] at hp
      exact List.mem_of_mem_take hp
    · simpa only [if_neg h3] using hp
  obtain ⟨h1, h2⟩ := combinations2_mem hp2
  by_cases hlen : 400 < s.bins.length
  · rw [if_pos hlen] at h1 h2
    constructor
    · exact (sortOrd_perm entry_before s.bins).mem_iff.mp (List.mem_of_mem_take h1)
    · exact (sortOrd_perm entry_before s.bins).mem_iff.mp (List.mem_of_mem_take h2)
  · rw [if_neg hlen] at h1 h2
    exact ⟨h1, h2⟩

/-- Inversion of the lead-lag kernel: an emitted lag is the best lag times
the hard-coded 1000, under the emission conditions. -/
lemma leadlag_correlation_some {maxLag : Int} {a b : List Nat} {lms : Int}
    (h : leadlag_correlation maxLag a b = some lms) :
    lms = ((leadlag_best maxLag (impulses a) (impulses b)).lag : Int) * 1000
    ∧ 9 * ((leadlag_best maxLag (impulses a) (impulses b)).ta
        * (leadlag_best maxLag (impulses a) (impulses b)).tb)
      ≤ 100 * ((leadlag_best maxLag (impulses a) (impulses b)).aligned
        * (leadlag_best maxLag (impulses a) (impulses b)).aligned)
    ∧ 2 ≤ (impulses a).sum ∧ 2 ≤ (impulses b).sum := by
  unfold leadlag_correlation at h
  by_cases h1 : a.length ≠ b.length ∨ a.length < 3
  · rw [if_pos h1] at h
    exact absurd h (by simp)
  · rw [if_neg h1] at h
    by_cases h2 : 9 * ((leadlag_best maxLag (impulses a) (impulses b)).ta
          * (leadlag_best maxLag (impulses a) (impulses b)).tb)
        ≤ 100 * ((leadlag_best maxLag (impulses a) (impulses b)).aligned
          * (leadlag_best maxLag (impulses a) (impulses b)).aligned)
        ∧ 2 ≤ (impulses a).sum ∧ 2 ≤ (impulses b).sum
    · rw [if_pos h2] at h
      have hl : ((leadlag_best maxLag (impulses a) (impulses b)).lag : Int) * 1000 = lms :=
        Option.some.inj h
    
      exact ⟨hl.symm, h2⟩
    · rw [if_neg h2] at h
      exact absurd h (by simp)

/-- A record of the correlation stream whose metrics are lead-lag metrics
comes from a bin-matrix entry pair on which the lead-lag kernel emitted. -/
lemma run_correlations_leadlag {args : Args} {s : Situation} {r : CorrRecord}
    (hr : r ∈ run_correlations args s) {lms : Int}
    (hm : r.metrics = CorrMetrics.leadlag lms) :
    ∃ ea eb, ea ∈ s.bins ∧ eb ∈ s.bins ∧ r.series_a = ea.1 ∧ r.series_b = eb.1
      ∧ leadlag_correlation args.max_lag ea.2 eb.2 = some lms := by
  unfold run_correlations at hr
  by_cases h1 : s.insufficient_temporal_spread
  · rw [if_pos h1] at hr
    simp at hr
  · rw [if_neg h1] at hr
    by_cases h2 : s.bins = []
    · rw [if_pos h2] at hr
      simp at hr
    · rw [if_neg h2] at hr
      obtain ⟨p, hp, hrp⟩ := List.mem_flatMap.mp hr
      obtain ⟨hma, hmb⟩ := corr_pairs_mem hp
      refine ⟨p.1, p.2, hma, hmb, ?_⟩
      unfold pair_records at hrp
      rcases List.mem_append.mp hrp with h12 | h3
      · rcases List.mem_append.mp h12 with hb | hpm
        · obtain ⟨al, _, rfl⟩ := mem_opt_rec hb
          exact absurd hm (by simp [mk_corr])
        · obtain ⟨co, _, rfl⟩ := mem_opt_rec hpm
          exact absurd hm (by simp [mk_corr])
      · obtain ⟨lms0, hker, rfl⟩ := mem_opt_rec h3
        have hl : lms0 = lms := by
          simpa [mk_corr] using hm
        subst hl
        exact ⟨rfl, rfl, hker⟩

/-- incAt preserves the length. -/
lemma incAt_length : ∀ (l : List Nat) (i : Nat), (incAt l i).length = l.length := by
  intro l
  induction l with
  | nil => intro i; rfl
  | cons x xs ih =>
    intro i
    cases i with
    | zero => rfl
    | succ n => simpa [incAt] using ih n

/-- incAt adds one to the sum exactly when the index is in range. -/
lemma incAt_sum : ∀ (l : List Nat) (i : Nat),
    (incAt l i).sum = if i < l.length then l.sum + 1 else l.sum := by
  intro l
  induction l with
  | nil => intro i; rfl
  | cons x xs ih =>
    intro i
    cases i with
    | zero => simp [incAt]; omega
    | succ n =>
      simp only [incAt, List.sum_cons, ih n, List.length_cons]
      by_cases h : n < xs.length
      · rw [if_pos h, if_pos (by omega)]
        omega
      · rw [if_neg h, if_neg (by omega)]

/-- A counter vector has an active entry exactly when its sum is positive. -/
lemma any_pos_iff_sum (l : List Nat) :
    (l.any (fun c => decide (0 < c)) = true) ↔ 0 < l.sum := by
  induction l with
  | nil => simp
  | cons x xs ih =>
    simp only [List.any_cons, List.sum_cons, Bool.or_eq_true, decide_eq_true_eq, ih]
    omega

/-- The bin index of an alert inside the padded window is in range. -/
lemma bin_idx_valid {ps pe ts bs : Int} (hbs : 0 < bs) (h1 : ps ≤ ts) (h2 : ts ≤ pe) :
    0 ≤ Int.tdiv (ts - ps) (bs * 1000)
    ∧ Int.tdiv (ts - ps) (bs * 1000) < (((Int.tdiv (pe - ps) (bs * 1000) + 1).toNat : Nat) : Int) := by
  have hm : (0 : Int) < bs * 1000 := by positivity
  have hnn : (0 : Int) ≤ ts - ps := by omega
  have hnn2 : (0 : Int) ≤ pe - ps := by omega
  have e1 : Int.tdiv (ts - ps) (bs * 1000) = (ts - ps) / (bs * 1000) := Int.tdiv_eq_ediv hnn hm.le
  have e2 : Int.tdiv (pe - ps) (bs * 1000) = (pe - ps) / (bs * 1000) := Int.tdiv_eq_ediv hnn2 hm.le
  have hle : (ts - ps) / (bs * 1000) ≤ (pe - ps) / (bs * 1000) := Int.ediv_le_ediv hm (by omega)
  have hd : (0 : Int) ≤ Int.tdiv (pe - ps) (bs * 1000) + 1 := by
    have := Int.tdiv_nonneg hnn2 hm.le
    omega
  constructor
  · exact Int.tdiv_nonneg hnn hm.le
  · rw [Int.toNat_of_nonneg hd]
    omega

/-- The filling fold of create_bins makes every entry positive, provided for
every entry either it is already positive or some remaining alert of its
series has an in-range bin index. -/
lemma create_bins_fold_pos (ps binMs : Int) (numBins : Nat) :
    ∀ (al : List Alert) (bins : List (String × List Nat)),
      (∀ e ∈ bins, e.2.length = numBins) →
      (∀ e ∈ bins, 0 < e.2.sum ∨ ∃ a ∈ al, a.fingerprint = e.1
          ∧ 0 ≤ Int.tdiv (a.ts - ps) binMs ∧ Int.tdiv (a.ts - ps) binMs < (numBins : Int)) →
      ∀ e ∈ al.foldl
        (fun bins a =>
          if 0 ≤ Int.tdiv (a.ts - ps) binMs ∧ Int.tdiv (a.ts - ps) binMs < (numBins : Int) then
            bins.map (fun e =>
              if e.1 = a.fingerprint then (e.1, incAt e.2 (Int.tdiv (a.ts - ps) binMs).toNat)
              else e)
          else bins) bins,
        0 < e.2.sum := by
  intro al
  induction al with
  | nil =>
    intro bins _ hmain e he
    rcases hmain e he with hpos | ⟨a, ha, _⟩
    · exact hpos
    · exact absurd ha (List.not_mem_nil a)
  | cons a rest ih =>
    intro bins hlen hmain e he
    rw [List.foldl_cons] at he
    by_cases hg : 0 ≤ Int.tdiv (a.ts - ps) binMs ∧ Int.tdiv (a.ts - ps) binMs < (numBins : Int)
    · rw [if_pos hg] at he
      refine ih _ ?_ ?_ e he
      · intro e2 he2
        obtain ⟨e0, he0, rfl⟩ := List.mem_map.mp he2
        by_cases hk : e0.1 = a.fingerprint
        · simpa [hk, incAt_length] using hlen e0 he0
        · simpa [hk] using hlen e0 he0
      · intro e2 he2
        obtain ⟨e0, he0, rfl⟩ := List.mem_map.mp he2
        rcases hmain e0 he0 with hpos | ⟨a0, ha0, hfp, hv1, hv2⟩
        · left
          by_cases hk : e0.1 = a.fingerprint
          · rw [if_pos hk]
            simp only
            rw [incAt_sum]
            by_cases hlt : (Int.tdiv (a.ts - ps) binMs).toNat < e0.2.length
            · rw [if_pos hlt]; omega
            · rw [if_neg hlt]; exact hpos
          · rw [if_neg hk]
            exact hpos
        · rcases List.mem_cons.mp ha0 with rfl | hrest
          · left
            rw [if_pos hfp.symm]
            simp only
            rw [incAt_sum, if_pos]
            · omega
            · rw [hlen e0 he0]
              have h1 := hg.1
              have h2 := hg.2
              omega
          · right
            by_cases hk : e0.1 = a.fingerprint
            · rw [if_pos hk]
              exact ⟨a0, hrest, hfp, hv1, hv2⟩
            · rw [if_neg hk]
              exact ⟨a0, hrest, hfp, hv1, hv2⟩
    · rw [if_neg hg] at he
      refine ih bins hlen ?_ e he
      intro e2 he2
      rcases hmain e2 he2 with hpos | ⟨a0, ha0, hfp, hv1, hv2⟩
      · exact Or.inl hpos
      · rcases List.mem_cons.mp ha0 with rfl | hrest
        · exact absurd ⟨hv1, hv2⟩ hg
        · exact Or.inr ⟨a0, hrest, hfp, hv1, hv2⟩

/-- The filling fold of create_bins preserves the number of series. -/
lemma create_bins_fold_length (ps binMs : Int) (numBins : Nat) :
    ∀ (al : List Alert) (bins : List (String × List Nat)),
      (al.foldl
        (fun bins a =>
          if 0 ≤ Int.tdiv (a.ts - ps) binMs ∧ Int.tdiv (a.ts - ps) binMs < (numBins : Int) then
            bins.map (fun e =>
              if e.1 = a.fingerprint then (e.1, incAt e.2 (Int.tdiv (a.ts - ps) binMs).toNat)
              else e)
          else bins) bins).length = bins.length := by
  intro al
  induction al with
  | nil => intro bins; rfl
  | cons a rest ih =>
    intro bins
    rw [List.foldl_cons]
    by_cases hg : 0 ≤ Int.tdiv (a.ts - ps) binMs ∧ Int.tdiv (a.ts - ps) binMs < (numBins : Int)
    · rw [if_pos hg, ih, List.length_map]
    · rw [if_neg hg, ih]

/-- In a bin matrix over alerts all inside the window, every series is
active, whatever the bin width: the count the source computes equals the
number of distinct fingerprints. -/
lemma count_active_create_bins {alerts : List Alert} {ps pe bs : Int} (hbs : 0 < bs)
    (hin : ∀ a ∈ alerts, ps ≤ a.ts ∧ a.ts ≤ pe) :
    count_active_series (create_bins alerts ps pe bs)
      = (dedupFO (alerts.map (fun a => a.fingerprint))).length := by
  unfold count_active_series
  have hall : ∀ e ∈ create_bins alerts ps pe bs,
      (fun e : String × List Nat => e.2.any (fun c => decide (0 < c))) e = true := by
    intro e he
    apply (any_pos_iff_sum e.2).mpr
    revert he
    simp only [create_bins]
    intro he
    refine create_bins_fold_pos ps (bs * 1000) ((Int.tdiv (pe - ps) (bs * 1000) + 1).toNat)
      alerts _ ?_ ?_ e he
    · intro e0 he0
      obtain ⟨k, hk, rfl⟩ := List.mem_map.mp he0
      simp
    · intro e0 he0
      obtain ⟨k, hk, rfl⟩ := List.mem_map.mp he0
      right
      have hk2 : k ∈ alerts.map (fun a => a.fingerprint) := dedupFOAux_subset _ [] k hk
      obtain ⟨a, ha, rfl⟩ := List.mem_map.mp hk2
      obtain ⟨hv1, hv2⟩ := bin_idx_valid hbs (hin a ha).1 (hin a ha).2
      exact ⟨a, ha, rfl, hv1, hv2⟩
  rw [List.countP_eq_length.mpr hall]
  simp only [create_bins]
  rw [create_bins_fold_length]
  exact List.length_map _ _

/-- A successful binning attempt always chooses the 1-second bins: the
active-series count does not depend on the bin width, so the 5-second
fallback can never turn an insufficient attempt into a sufficient one. -/
lemma spread_attempt_binsize {reh : List Alert} {ps pe : Int}
    (hin : ∀ a ∈ reh, ps ≤ a.ts ∧ a.ts ≤ pe)
    (hcnt : 3 ≤ count_active_series (spread_attempt reh ps pe).2) :
    (spread_attempt reh ps pe).1 = 1 := by
  unfold spread_attempt at hcnt ⊢
  by_cases hd : count_active_series (create_bins reh ps pe 1) < 3
  · rw [if_pos hd] at hcnt ⊢
    have h5 := count_active_create_bins (by norm_num : (0 : Int) < 5) hin
    have h1 := count_active_create_bins (by norm_num : (0 : Int) < 1) hin
    simp only at hcnt
    rw [h5] at hcnt
    rw [h1] at hd
    omega
  · rw [if_neg hd]

/-- A successful padding loop stores bin width 1. -/
lemma spread_loop_binsize (relevant : List Alert) (startMs stopMs : Int) :
    ∀ (fuel : Nat) (padMs : Int) (r : SpreadResult),
      spread_loop relevant startMs stopMs fuel padMs = some r → r.bin_size_s = 1 := by
  intro fuel
  induction fuel with
  | zero =>
    intro padMs r h
    simp [spread_loop] at h
  | succ n ih =>
    intro padMs r h
    unfold spread_loop at h
    by_cases hpad : padMs > 600000
    · rw [if_pos hpad] at h
      exact absurd h (by simp)
    · rw [if_neg hpad] at h
      by_cases hreh : rehydrate relevant (startMs - padMs) (stopMs + padMs) = []
      · rw [if_pos hreh] at h
        exact ih _ r h
      · rw [if_neg hreh] at h
        by_cases hsucc : 3 ≤ count_active_series
              (spread_attempt (rehydrate relevant (startMs - padMs) (stopMs + padMs))
                (startMs - padMs) (stopMs + padMs)).2
            ∧ 10000 ≤ (stopMs + padMs) - (startMs - padMs)
        · rw [if_pos hsucc] at h
          have hr := Option.some.inj h
          have hin : ∀ a ∈ rehydrate relevant (startMs - padMs) (stopMs + padMs),
              (startMs - padMs) ≤ a.ts ∧ a.ts ≤ (stopMs + padMs) := by
            intro a ha
            unfold rehydrate at ha
            have hcond := (List.mem_filter.mp ha).2
            simp only [Bool.and_eq_true, decide_eq_true_eq] at hcond
            exact hcond
          have hatt := spread_attempt_binsize hin hsucc.1
          rw [← hr]
          exact hatt
        · rw [if_neg hsucc] at h
          exact ih _ r h

/-- A situation the spreader did not mark insufficient carries bin width 1:
the 5-second fallback is unreachable on success (see
spread_attempt_binsize). -/
lemma apply_temporal_spread_binsize (alerts : List Alert) (s : Situation)
    (h : (apply_temporal_spread alerts s).insufficient_temporal_spread = false) :
    (apply_temporal_spread alerts s).bin_size_s = 1 := by
  unfold apply_temporal_spread at h ⊢
  by_cases hdur : s.window.stop - s.window.start < 10000
  · rw [if_pos hdur] at h
    simp at h
  · rw [if_neg hdur] at h ⊢
    cases hloop : spread_loop (relevant_alerts s alerts) s.window.start s.window.stop 20 60000 with
    | none =>
      rw [hloop] at h
      simp at h
    | some r =>
      exact spread_loop_binsize _ _ _ 20 60000 r hloop

/-- Any emitted correlation record certifies that its situation was not
marked insufficient. -/
lemma run_correlations_flag {args : Args} {s : Situation} {r : CorrRecord}
    (hr : r ∈ run_correlations args s) : s.insufficient_temporal_spread = false := by
  unfold run_correlations at hr
  by_cases h1 : s.insufficient_temporal_spread
  · rw [if_pos h1] at hr
    simp at hr
  · simpa using h1

/-! ### Claim C3: lead-lag lag_ms and emission conditions -/

/-- C3: every emitted lead-lag record of a spread situation reports
lag_ms = best_lag * bin_size_s * 1000 for the situation's stored bin width,
and is emitted only when the best normalized cross-correlation score is at
least 0.3 (the exact squared test) and both binarized series have at least
two active bins.  The equation holds on the source because a situation that
passes the spreader always stores bin_size_s = 1 (the 5-second fallback is
unreachable, see spread_attempt_binsize), making the hard-coded
best_lag * 1000 of the kernel agree with best_lag * bin_size_ms. -/
theorem claim_C3 (args : Args) (alerts : List Alert) (s : Situation) :
    ∀ r ∈ run_correlations args (apply_temporal_spread alerts s), ∀ lms : Int,
      r.metrics = CorrMetrics.leadlag lms →
      ∃ ea eb, ea ∈ (apply_temporal_spread alerts s).bins
        ∧ eb ∈ (apply_temporal_spread alerts s).bins
        ∧ r.series_a = ea.1 ∧ r.series_b = eb.1
        ∧ lms = ((leadlag_best args.max_lag (impulses ea.2) (impulses eb.2)).lag : Int)
            * ((apply_temporal_spread alerts s).bin_size_s * 1000)
        ∧ 9 * ((leadlag_best args.max_lag (impulses ea.2) (impulses eb.2)).ta
            * (leadlag_best args.max_lag (impulses ea.2) (impulses eb.2)).tb)
          ≤ 100 * ((leadlag_best args.max_lag (impulses ea.2) (impulses eb.2)).aligned
            * (leadlag_best args.max_lag (impulses ea.2) (impulses eb.2)).aligned)
        ∧ 2 ≤ (impulses ea.2).sum ∧ 2 ≤ (impulses eb.2).sum := by
  intro r hr lms hm
  obtain ⟨ea, eb, hma, hmb, hsa, hsb, hker⟩ := run_correlations_leadlag hr hm
  obtain ⟨hlag, hcond, h2a, h2b⟩ := leadlag_correlation_some hker
  have hbs := apply_temporal_spread_binsize alerts s (run_correlations_flag hr)
  refine ⟨ea, eb, hma, hmb, hsa, hsb, ?_, hcond, h2a, h2b⟩
  rw [hbs, hlag]
  ring

/-- C3 witness: on the concrete three-series input the spreader succeeds at
pad 60000 with bin width 1 and the pipeline emits the lead-lag record for
the pair (g1, g2); the theorem applies to it. -/
theorem claim_C3_witness :
    c3Record ∈ run_correlations c3Args (apply_temporal_spread c3Alerts c3Situation)
    ∧ c3Record.metrics = CorrMetrics.leadlag 0
    ∧ ∃ ea eb, ea ∈ (apply_temporal_spread c3Alerts c3Situation).bins
        ∧ eb ∈ (apply_temporal_spread c3Alerts c3Situation).bins
        ∧ c3Record.series_a = ea.1 ∧ c3Record.series_b = eb.1
        ∧ (0 : Int) = ((leadlag_best c3Args.max_lag (impulses ea.2) (impulses eb.2)).lag : Int)
            * ((apply_temporal_spread c3Alerts c3Situation).bin_size_s * 1000)
        ∧ 9 * ((leadlag_best c3Args.max_lag (impulses ea.2) (impulses eb.2)).ta
            * (leadlag_best c3Args.max_lag (impulses ea.2) (impulses eb.2)).tb)
          ≤ 100 * ((leadlag_best c3Args.max_lag (impulses ea.2) (impulses eb.2)).aligned
            * (leadlag_best c3Args.max_lag (impulses ea.2) (impulses eb.2)).aligned)
        ∧ 2 ≤ (impulses ea.2).sum ∧ 2 ≤ (impulses eb.2).sum :=
  ⟨by decide, rfl,
   claim_C3 c3Args c3Alerts c3Situation c3Record (by decide) 0 rfl⟩

/-! ### Lemmas for claims C8 and C9 -/

/-- Looking up the key just stored. -/
lemma alookup_aset_self {κ β : Type} [DecidableEq κ] :
    ∀ (l : List (κ × β)) (k : κ) (v : β), alookup (aset l k v) k = some v := by
  intro l
  induction l with
  | nil =>
    intro k v
    simp [aset, alookup]
  | cons e rest ih =>
    intro k v
    unfold aset
    by_cases he : e.1 = k
    · rw [if_pos he]
      simp [alookup]
    · rw [if_neg he]
      unfold alookup
      rw [if_neg he]
      exact ih k v

/-- Storing one key leaves every other lookup unchanged. -/
lemma alookup_aset_ne {κ β : Type} [DecidableEq κ] :
    ∀ (l : List (κ × β)) (k k2 : κ) (v : β), k2 ≠ k →
      alookup (aset l k v) k2 = alookup l k2 := by
  intro l
  induction l with
  | nil =>
    intro k k2 v h
    unfold aset alookup
    rw [if_neg (fun hx => h hx.symm)]
    rfl
  | cons e rest ih =>
    intro k k2 v h
    unfold aset
    by_cases he : e.1 = k
    · rw [if_pos he]
      unfold alookup
      rw [if_neg (fun hx => h hx.symm), if_neg (fun hx : e.1 = k2 => h (he ▸ hx).symm)]
    · rw [if_neg he]
      unfold alookup
      by_cases h2 : e.1 = k2
      · rw [if_pos h2, if_pos h2]
      · rw [if_neg h2, if_neg h2]
        exact ih k k2 v h

/-- Inserting keeps pairwise sortedness by the key. -/
lemma insertOrd_pairwise_key {α γ : Type} [LinearOrder γ] (K : α → γ) (x : α) :
    ∀ l : List α, List.Pairwise (fun p q => K p ≤ K q) l →
      List.Pairwise (fun p q => K p ≤ K q) (insertOrd (fun a b => decide (K a < K b)) x l) := by
  intro l
  induction l with
  | nil =>
    intro _
    exact List.pairwise_cons.mpr ⟨by simp, List.Pairwise.nil⟩
  | cons y ys ih =>
    intro h
    obtain ⟨hy, hys⟩ := List.pairwise_cons.mp h
    unfold insertOrd
    by_cases hlt : K y < K x
    · rw [if_pos (by simpa using hlt)]
      refine List.pairwise_cons.mpr ⟨?_, ih hys⟩
      intro z hz
      have hz2 := (insertOrd_perm _ x ys).mem_iff.mp hz
      rcases List.mem_cons.mp hz2 with rfl | hzys
      · exact hlt.le
      · exact hy z hzys
    · rw [if_neg (by simpa using hlt)]
      refine List.pairwise_cons.mpr ⟨?_, h⟩
      intro z hz
      rcases List.mem_cons.mp hz with rfl | hzys
      · exact not_lt.mp hlt
      · exact (not_lt.mp hlt).trans (hy z hzys)

/-- The insertion sort by a key is sorted by that key. -/
lemma sortOrd_pairwise_key {α γ : Type} [LinearOrder γ] (K : α → γ) :
    ∀ l : List α,
      List.Pairwise (fun p q => K p ≤ K q) (sortOrd (fun a b => decide (K a < K b)) l) := by
  intro l
  induction l with
  | nil => exact List.Pairwise.nil
  | cons x xs ih => exact insertOrd_pairwise_key K x _ ih

/-- Sorting an already sorted list is the identity (the strict-compare
insertion never moves an element past an equal key, which is exactly
stability). -/
lemma sortOrd_sorted_id {α γ : Type} [LinearOrder γ] (K : α → γ) :
    ∀ l : List α, List.Pairwise (fun p q => K p ≤ K q) l →
      sortOrd (fun a b => decide (K a < K b)) l = l := by
  intro l
  induction l with
  | nil => intro _; rfl
  | cons x xs ih =>
    intro h
    obtain ⟨hx, hxs⟩ := List.pairwise_cons.mp h
    unfold sortOrd
    rw [ih hxs]
    cases xs with
    | nil => rfl
    | cons y ys =>
      unfold insertOrd
      rw [if_neg (by simpa using not_lt.mpr (hx y (List.mem_cons_self y ys)))]

/-- The accepted list is a sublist of the input. -/
lemma noise_go_sublist (ttl : Int) :
    ∀ (l : List Alert) (st : NoiseState), ((noise_go ttl st l).1).Sublist l := by
  intro l
  induction l with
  | nil => intro st; exact List.Sublist.refl _
  | cons a rest ih =>
    intro st
    unfold noise_go
    by_cases hs : (noise_step ttl st a).2 = true
    · rw [if_pos hs]
      exact List.Sublist.cons₂ a (ih _)
    · rw [if_neg hs]
      exact List.Sublist.cons a (ih _)

/-- A failed dedup check means every cached timestamp for the key is at
least ttl seconds old. -/
lemma dedup_drop_false {ttl : Int} {st : NoiseState} {a : Alert}
    (h : dedup_drop ttl st a = false) :
    ∀ t, alookup st.dedup (a.fingerprint, a.severity, a.entity_key) = some t →
      ¬ (a.ts - t < ttl * 1000) := by
  intro t ht
  unfold dedup_drop at h
  rw [ht] at h
  simpa using h

/-- Main dedup invariant of the noise-cut loop: over a ts-sorted input, and
from a cache whose entries are no later than every input timestamp, the
accepted list has no two same-key alerts closer than the TTL, and every
accepted alert is at least the TTL away from any initial cache entry of its
key. -/
lemma noise_go_dedup_spacing (ttl : Int) :
    ∀ (l : List Alert) (st : NoiseState),
      List.Pairwise (fun x y => x.ts ≤ y.ts) l →
      (∀ k v, alookup st.dedup k = some v → ∀ x ∈ l, v ≤ x.ts) →
      (List.Pairwise (fun b c => (b.fingerprint, b.severity, b.entity_key)
          = (c.fingerprint, c.severity, c.entity_key) → c.ts - b.ts ≥ ttl * 1000)
        (noise_go ttl st l).1)
      ∧ ∀ x ∈ (noise_go ttl st l).1, ∀ v,
          alookup st.dedup (x.fingerprint, x.severity, x.entity_key) = some v →
          x.ts - v ≥ ttl * 1000 := by
  intro l
  induction l with
  | nil =>
    intro st _ _
    exact ⟨List.Pairwise.nil, by simp [noise_go]⟩
  | cons a rest ih =>
    intro st hsorted hbound
    obtain ⟨hts, hsrest⟩ := List.pairwise_cons.mp hsorted
    by_cases hd : dedup_drop ttl st a = true
    · -- dropped by the dedup check: the state is unchanged
      have hstep : noise_step ttl st a = (st, false) := by
        unfold noise_step
        rw [if_pos hd]
      have hgo : noise_go ttl st (a :: rest) = noise_go ttl st rest := by
        simp only [noise_go, hstep]
        rfl
      rw [hgo]
      exact ih st hsrest (fun k v hv x hx => hbound k v hv x (List.mem_cons_of_mem a hx))
    · have hd2 : dedup_drop ttl st a = false := by simpa using hd
      have hnd := dedup_drop_false hd2
      -- after the dedup pass the cache holds a.ts for the key of a
      have hbound2 : ∀ k v, alookup (pass_state st a).dedup k = some v →
          ∀ x ∈ rest, v ≤ x.ts := by
        intro k v hv x hx
        by_cases hk : k = (a.fingerprint, a.severity, a.entity_key)
        · subst hk
          rw [show (pass_state st a).dedup
              = aset st.dedup (a.fingerprint, a.severity, a.entity_key) a.ts from rfl,
            alookup_aset_self] at hv
          have : v = a.ts := (Option.some.inj hv).symm
          subst this
          exact hts x hx
        · rw [show (pass_state st a).dedup
              = aset st.dedup (a.fingerprint, a.severity, a.entity_key) a.ts from rfl,
            alookup_aset_ne _ _ _ _ hk] at hv
          exact hbound k v hv x (List.mem_cons_of_mem a hx)
      -- from conclusions about the updated cache to the initial cache
      have htrans : ∀ (out : List Alert),
          (∀ x ∈ out, ∀ v, alookup (pass_state st a).dedup
              (x.fingerprint, x.severity, x.entity_key) = some v → x.ts - v ≥ ttl * 1000) →
          ∀ x ∈ out, ∀ v, alookup st.dedup
              (x.fingerprint, x.severity, x.entity_key) = some v → x.ts - v ≥ ttl * 1000 := by
        intro out hout x hx v hv
        by_cases hk : (x.fingerprint, x.severity, x.entity_key)
            = (a.fingerprint, a.severity, a.entity_key)
        · have hget : alookup (pass_state st a).dedup
              (x.fingerprint, x.severity, x.entity_key) = some a.ts := by
            rw [hk]
            exact alookup_aset_self _ _ _
          have h1 := hout x hx a.ts hget
          have h2 : v ≤ a.ts := hbound _ v hv a (List.mem_cons_self a rest)
          omega
        · have hget : alookup (pass_state st a).dedup
              (x.fingerprint, x.severity, x.entity_key) = some v := by
            rw [show (pass_state st a).dedup
                = aset st.dedup (a.fingerprint, a.severity, a.entity_key) a.ts from rfl,
              alookup_aset_ne _ _ _ _ hk]
            exact hv
          exact hout x hx v hget
      by_cases he : is_echo (pass_state st a).echo a = true
      · -- passed dedup but dropped as echo: the cache was still advanced
        have hstep : noise_step ttl st a = (pass_state st a, false) := by
          unfold noise_step
          rw [if_neg (by simp [hd2]), if_pos he]
        have hgo : noise_go ttl st (a :: rest) = noise_go ttl (pass_state st a) rest := by
          simp only [noise_go, hstep]
          rfl
        rw [hgo]
        obtain ⟨hpw, hsp⟩ := ih (pass_state st a) hsrest hbound2
        exact ⟨hpw, htrans _ hsp⟩
      · -- accepted
        have hstep : noise_step ttl st a
            = (flap_update (echo_update (pass_state st a) a) a, true) := by
          unfold noise_step
          rw [if_neg (by simp [hd2]), if_neg (by simpa using he)]
        have hgo : noise_go ttl st (a :: rest)
            = (a :: (noise_go ttl (flap_update (echo_update (pass_state st a) a) a) rest).1,
               (noise_go ttl (flap_update (echo_update (pass_state st a) a) a) rest).2) := by
          simp only [noise_go, hstep]
          rfl
        rw [hgo]
        have hdedup3 : (flap_update (echo_update (pass_state st a) a) a).dedup
            = (pass_state st a).dedup := rfl
        obtain ⟨hpw, hsp⟩ := ih (flap_update (echo_update (pass_state st a) a) a) hsrest
          (by rw [hdedup3]; exact hbound2)
        constructor
        · refine List.pairwise_cons.mpr ⟨?_, hpw⟩
          intro c hc hkey
          have hget : alookup (flap_update (echo_update (pass_state st a) a) a).dedup
              (c.fingerprint, c.severity, c.entity_key) = some a.ts := by
            rw [hdedup3, ← hkey]
            rw [show (pass_state st a).dedup
                = aset st.dedup (a.fingerprint, a.severity, a.entity_key) a.ts from rfl]
            rw [hkey]
            exact alookup_aset_self _ _ _
          exact hsp c hc a.ts hget
        · intro x hx v hv
          rcases List.mem_cons.mp hx with rfl | hxout
          · have := hnd v hv
            omega
          · exact htrans _ (by rw [← hdedup3]; exact hsp) x hxout v hv

/-- C8: every alert accepted by the noise filter is at least dedup_ttl
seconds later than any earlier accepted alert with the same
(fingerprint, severity, entity_key) triple; in particular, of three such
identical alerts at 0, 60000 and 125000 ms with dedup_ttl = 120 s, the
ones at 0 and 125000 survive and the one at 60000 is dropped. -/
theorem claim_C8 :
    (∀ (ttl : Int) (alerts : List Alert),
      List.Pairwise (fun b c =>
        (b.fingerprint, b.severity, b.entity_key)
          = (c.fingerprint, c.severity, c.entity_key) →
        c.ts - b.ts ≥ ttl * 1000) (apply_noise_cut ttl alerts))
    ∧ apply_noise_cut 120 [c8a 0 "v1", c8a 60000 "v2", c8a 125000 "v3"]
        = [c8a 0 "v1", c8a 125000 "v3"] := by
  constructor
  · intro ttl alerts
    have hs : List.Pairwise (fun x y : Alert => x.ts ≤ y.ts)
        (sortOrd (fun a b => a.ts < b.ts) alerts) :=
      sortOrd_pairwise_key (fun a : Alert => a.ts) alerts
    exact (noise_go_dedup_spacing ttl _ initNoiseState hs
      (fun k v hv => by simp [initNoiseState, alookup] at hv)).1
  · decide

/-- The dedup-cache write of an alert leaves the echo tracker unchanged. -/
lemma pass_state_echo (st : NoiseState) (a : Alert) :
    (pass_state st a).echo = st.echo := rfl

/-- The dedup cache after accepting an alert: the alert timestamp stored
under its key. -/
lemma accept_dedup (st : NoiseState) (a : Alert) :
    (flap_update (echo_update (pass_state st a) a) a).dedup
      = aset st.dedup (a.fingerprint, a.severity, a.entity_key) a.ts := rfl

/-- The echo tracker after accepting an alert, as a function of the previous
echo tracker and the alert alone. -/
lemma accept_echo (st : NoiseState) (a : Alert) :
    (flap_update (echo_update (pass_state st a) a) a).echo
      = aset st.echo (a.fingerprint, a.entity_key)
          ((alookupD st.echo (a.fingerprint, a.entity_key) [] ++ [(a.ts, a.source)]).filter
            (fun p => decide (a.ts - p.1 ≤ 10000))) := rfl

/-- Spacing implies the dedup check passes. -/
lemma dedup_drop_eq_false {ttl : Int} {st : NoiseState} {a : Alert}
    (h : ∀ v, alookup st.dedup (a.fingerprint, a.severity, a.entity_key) = some v →
      a.ts - v ≥ ttl * 1000) :
    dedup_drop ttl st a = false := by
  unfold dedup_drop
  cases hl : alookup st.dedup (a.fingerprint, a.severity, a.entity_key) with
  | none => rfl
  | some t =>
    have h2 := h t hl
    simp only [decide_eq_false_iff_not]
    omega

/-- Replay simulation: running the filter over an accepted output list, from
a state with the same echo tracker as the original starting state and a dedup
cache already at least the TTL away from every output alert of its key,
reproduces the output.  (Only dropped alerts touch the dedup cache without
being replayed; echo and flap trackers mutate on accepted alerts only, and
the flap tracker is never read by the acceptance test.) -/
lemma noise_go_replay (ttl : Int) :
    ∀ (l : List Alert) (st st' : NoiseState),
      st'.echo = st.echo →
      List.Pairwise (fun b c => (b.fingerprint, b.severity, b.entity_key)
          = (c.fingerprint, c.severity, c.entity_key) → c.ts - b.ts ≥ ttl * 1000)
        (noise_go ttl st l).1 →
      (∀ x ∈ (noise_go ttl st l).1, ∀ v,
          alookup st'.dedup (x.fingerprint, x.severity, x.entity_key) = some v →
          x.ts - v ≥ ttl * 1000) →
      (noise_go ttl st' (noise_go ttl st l).1).1 = (noise_go ttl st l).1 := by
  intro l
  induction l with
  | nil =>
    intro st st' _ _ _
    rfl
  | cons a rest ih =>
    intro st st' hecho hpw hsp
    by_cases hd : dedup_drop ttl st a = true
    · -- the original run drops a by the dedup check: a is not in the output
      have hstep : noise_step ttl st a = (st, false) := by
        unfold noise_step
        rw [if_pos hd]
      have hgo : noise_go ttl st (a :: rest) = noise_go ttl st rest := by
        simp only [noise_go, hstep]
        rfl
      rw [hgo] at hpw hsp ⊢
      exact ih st st' hecho hpw hsp
    · have hd2 : dedup_drop ttl st a = false := by simpa using hd
      by_cases he : is_echo (pass_state st a).echo a = true
      · -- dropped as a vendor echo: only the dedup cache advanced
        have hstep : noise_step ttl st a = (pass_state st a, false) := by
          unfold noise_step
          rw [if_neg (by simp [hd2]), if_pos he]
        have hgo : noise_go ttl st (a :: rest)
            = noise_go ttl (pass_state st a) rest := by
          simp only [noise_go, hstep]
          rfl
        rw [hgo] at hpw hsp ⊢
        exact ih (pass_state st a) st' hecho hpw hsp
      · -- accepted: the replay accepts it again
        have he2 : is_echo (pass_state st a).echo a = false := by simpa using he
        have hstep : noise_step ttl st a
            = (flap_update (echo_update (pass_state st a) a) a, true) := by
          unfold noise_step
          rw [if_neg (by simp [hd2]), if_neg (by simpa using he)]
        have hout : (noise_go ttl st (a :: rest)).1
            = a :: (noise_go ttl (flap_update (echo_update (pass_state st a) a) a) rest).1 := by
          simp only [noise_go, hstep]
          rfl
        rw [hout] at hpw hsp ⊢
        have hd' : dedup_drop ttl st' a = false :=
          dedup_drop_eq_false (fun v hv => hsp a (List.mem_cons_self a _) v hv)
        have he' : is_echo (pass_state st' a).echo a = false := by
          rw [pass_state_echo, hecho, ← pass_state_echo st a]
          exact he2
        have hstep' : noise_step ttl st' a
            = (flap_update (echo_update (pass_state st' a) a) a, true) := by
          unfold noise_step
          rw [if_neg (by simp [hd']), if_neg (by simp [he'])]
        have hout' : (noise_go ttl st'
              (a :: (noise_go ttl (flap_update (echo_update (pass_state st a) a) a) rest).1)).1
            = a :: (noise_go ttl (flap_update (echo_update (pass_state st' a) a) a)
                ((noise_go ttl (flap_update (echo_update (pass_state st a) a) a) rest).1)).1 := by
          simp only [noise_go, hstep']
          rfl
        rw [hout']
        obtain ⟨hhead, htail⟩ := List.pairwise_cons.mp hpw
        have hsp' : ∀ x ∈ (noise_go ttl (flap_update (echo_update (pass_state st a) a) a) rest).1,
            ∀ v, alookup (flap_update (echo_update (pass_state st' a) a) a).dedup
                (x.fingerprint, x.severity, x.entity_key) = some v →
              x.ts - v ≥ ttl * 1000 := by
          intro x hx v hv
          rw [accept_dedup] at hv
          by_cases hk : (x.fingerprint, x.severity, x.entity_key)
              = (a.fingerprint, a.severity, a.entity_key)
          · rw [hk, alookup_aset_self] at hv
            have hv2 : v = a.ts := (Option.some.inj hv).symm
            have := hhead x hx hk.symm
            omega
          · rw [alookup_aset_ne _ _ _ _ hk] at hv
            exact hsp x (List.mem_cons_of_mem a hx) v hv
        have hechoStep : (flap_update (echo_update (pass_state st' a) a) a).echo
            = (flap_update (echo_update (pass_state st a) a) a).echo := by
          rw [accept_echo, accept_echo, hecho]
        rw [ih (flap_update (echo_update (pass_state st a) a) a)
          (flap_update (echo_update (pass_state st' a) a) a) hechoStep htail hsp']

/-- C9: the noise filter is idempotent: applying the filter with fresh
dedup, echo and flap tracker state to its own output returns that output
unchanged, for every alert list. -/
theorem claim_C9 (ttl : Int) (alerts : List Alert) :
    apply_noise_cut ttl (apply_noise_cut ttl alerts) = apply_noise_cut ttl alerts := by
  have hsort : List.Pairwise (fun x y : Alert => x.ts ≤ y.ts)
      (sortOrd (fun a b => a.ts < b.ts) alerts) :=
    sortOrd_pairwise_key (fun a : Alert => a.ts) alerts
  have hsub : (apply_noise_cut ttl alerts).Sublist
      (sortOrd (fun a b => a.ts < b.ts) alerts) :=
    noise_go_sublist ttl _ initNoiseState
  have hsorted : List.Pairwise (fun x y : Alert => x.ts ≤ y.ts)
      (apply_noise_cut ttl alerts) := List.Pairwise.sublist hsub hsort
  have hid : sortOrd (fun a b => a.ts < b.ts) (apply_noise_cut ttl alerts)
      = apply_noise_cut ttl alerts :=
    sortOrd_sorted_id (fun a : Alert => a.ts) _ hsorted
  have hpw := (noise_go_dedup_spacing ttl _ initNoiseState hsort
      (fun k v hv => by simp [initNoiseState, alookup] at hv)).1
  show (noise_go ttl initNoiseState
      (sortOrd (fun a b => a.ts < b.ts) (apply_noise_cut ttl alerts))).1
      = apply_noise_cut ttl alerts
  rw [hid]
  exact noise_go_replay ttl _ initNoiseState initNoiseState rfl hpw
    (fun x hx v hv => by simp [initNoiseState, alookup] at hv)
